import Mathlib

/-!
Verification of the bundle-reference resolver of the `panout` repository
(`src/resolver.rs`, with configuration types from `src/config.rs` and
error kinds from `src/error.rs`).

Strings are modelled as `List Char` (`Str`).  Rust `HashMap`s are
modelled as association lists whose key order stands for the map's
arbitrary iteration order; lookup takes the first match (maps produced
by the TOML loader have unique keys).  Rust's `HashSet<String>` visiting
set is modelled as a `List Str` with guarded cons for `insert` and
`List.erase` for `remove` (the guard means no duplicates ever arise).

The two recursive resolvers mutate the visiting set (and, in pane mode,
the accumulator `pane_cmds`) in place; the embedding threads that state
explicitly and also returns it, so that the state left behind by error
exits is observable.  Recursion is bounded by explicit fuel, consumed
one unit per bundle frame (the fuel-exhausted case is `none`); the
public entry points `resolve_bundle` / `resolve_with_panes` supply
`fuelBound`, which exceeds the deepest possible frame nesting (each
nested frame adds a distinct existing bundle path to the visiting set,
so nesting never exceeds the number of bundle paths plus one).
-/

namespace Panout

/-- A string, as its list of characters. -/
abbrev Str := List Char

instance {ε α : Type} [DecidableEq ε] [DecidableEq α] : DecidableEq (Except ε α) :=
  fun x y =>
    match x, y with
    | .ok a, .ok b =>
      if h : a = b then isTrue (by rw [h])
      else isFalse (by intro hh; cases hh; exact h rfl)
    | .ok _, .error _ => isFalse (by intro h; cases h)
    | .error _, .ok _ => isFalse (by intro h; cases h)
    | .error a, .error b =>
      if h : a = b then isTrue (by rw [h])
      else isFalse (by intro hh; cases hh; exact h rfl)

/-- Pane-grouped output: `Vec<(u32, Vec<String>)>` from `resolve_with_panes`. -/
abbrev PaneCmds := List (Nat × List Str)

/-- The resolver-relevant error kinds of `PanoutError` (`src/error.rs`).
Constructors carrying foreign payloads (I/O, TOML) are out of the
resolver's scope and omitted. -/
inductive PanoutError where
  | BundleNotFound : Str → PanoutError
  | ServerNotFound : Str → PanoutError
  | WorkspaceNotFound : Str → PanoutError
  | InvalidRef : Str → PanoutError
  | CircularRef : Str → PanoutError
  | TmuxError : Str → PanoutError
  | NotInTmux : PanoutError
  deriving DecidableEq, Repr

/-- `Layout` (`src/config.rs`): tmux layout choices, opaque to the resolver. -/
inductive Layout where
  | Tiled | Vertical | Horizontal
  deriving DecidableEq, Repr

/-- `Cmd` (`src/config.rs`): a command field holding one string or many. -/
inductive Cmd where
  | Single : Str → Cmd
  | Multiple : List Str → Cmd
  deriving DecidableEq, Repr

/-- `Cmd::to_vec`: normalize both variants to a list. -/
def Cmd.to_vec : Cmd → List Str
  | .Single s => [s]
  | .Multiple v => v

/-- `BundleEntry` (`src/config.rs`): one named command unit. -/
structure BundleEntry where
  cmd : Cmd
  pane : Option Nat := none
  role : Option Str := none
  layout : Option Layout := none
  deriving DecidableEq, Repr

/-- First-match association-list lookup (`HashMap::get`). -/
def lookupA {α : Type} : List (Str × α) → Str → Option α
  | [], _ => none
  | (k, v) :: rest, key => if k = key then some v else lookupA rest key

/-- Split a string at the first occurrence of `sep`:
`some (before, after)` when `sep` occurs, `none` otherwise.  Models
Rust's `splitn(2, sep)` producing two parts (`none` = only one part). -/
def splitnFirst : Str → Char → Option (Str × Str)
  | [], _ => none
  | c :: cs, sep =>
    if c = sep then some ([], cs)
    else
      match splitnFirst cs sep with
      | some (a, b) => some (c :: a, b)
      | none => none

/-- `Config` (`src/config.rs`), restricted to the field the resolver
reads: bundle groups, `group_name -> entry_name -> BundleEntry`. -/
structure Config where
  bundles : List (Str × List (Str × BundleEntry))
  deriving DecidableEq, Repr

/-- `Config::get_bundle`: split the path on the first dot and look the
entry up; a path without a dot finds nothing. -/
def Config.get_bundle (cfg : Config) (path : Str) : Option BundleEntry :=
  match splitnFirst path '.' with
  | none => none
  | some (g, n) =>
    match lookupA cfg.bundles g with
    | none => none
    | some entries => lookupA entries n

/-- `Config::get_group`: all bundles of a group. -/
def Config.get_group (cfg : Config) (g : Str) : Option (List (Str × BundleEntry)) :=
  lookupA cfg.bundles g

/-- `ResolvedRef` (`src/resolver.rs`). -/
inductive ResolvedRef where
  | Command : Str → ResolvedRef
  | BundleRef : Str → Str → ResolvedRef
  | GroupAll : Str → ResolvedRef
  deriving DecidableEq, Repr

/-- `parse_ref` (`src/resolver.rs`): strings starting with `@` and
containing a dot are references; everything else is a literal command. -/
def parse_ref (s : Str) : ResolvedRef :=
  match s with
  | '@' :: rest =>
    match splitnFirst rest '.' with
    | some (group, name) =>
      if name = ['*'] then .GroupAll group else .BundleRef group name
    | none => .Command s
  | _ => .Command s

/-- `format!("{}.{}", group, name)`: the bundle path of a reference. -/
def mkPath (group name : Str) : Str := group ++ '.' :: name

/-- The apostrophe character used in the group-not-found message. -/
def quoteChar : Char := Char.ofNat 39

/-- The payload of `BundleNotFound(format!("group '{}'", group))`. -/
def groupErr (g : Str) : Str := ("group ").data ++ quoteChar :: (g ++ [quoteChar])

/-- Lexicographic order on strings as a Bool, matching Rust's `Ord` on
`String` for the character ranges at play. -/
def strLe : Str → Str → Bool
  | [], _ => true
  | _ :: _, [] => false
  | a :: as_, b :: bs => if a = b then strLe as_ bs else decide (a < b)

/-- Insert into a `strLe`-sorted list, keeping it sorted (stable). -/
def insertSorted (x : Str) : List Str → List Str
  | [] => [x]
  | y :: ys => if strLe x y then x :: y :: ys else y :: insertSorted x ys

/-- Insertion sort by `strLe`: models `names.sort()` on a group's keys. -/
def sortStrs : List Str → List Str
  | [] => []
  | x :: xs => insertSorted x (sortStrs xs)

/-- The sorted entry names of a group (`let mut names… ; names.sort()`). -/
def sortedKeys (entries : List (Str × BundleEntry)) : List Str :=
  sortStrs (entries.map Prod.fst)

/-! ## Flat resolution (`resolve_bundle` / `resolve_bundle_inner`)

The inner loop bodies are factored out over the recursive call `recur`
(the next-smaller-fuel resolver), so each loop is plain structural
recursion on its list.  Every function returns the computed value
together with the final visiting set; `none` means fuel ran out. -/

/-- One flat-mode step result: the `Result` value plus the visiting set
as left behind by the call. -/
abbrev FlatRes := Option (Except PanoutError (List Str) × List Str)

/-- The `for name in names` loop of the flat resolver's `GroupAll` arm:
resolve each group member in order, concatenating outputs and threading
the visiting set. -/
def resolveNamesF (g : Str) (recur : Str → List Str → FlatRes) :
    List Str → List Str → FlatRes
  | [], visited => some (.ok [], visited)
  | n :: ns, visited =>
    match recur (mkPath g n) visited with
    | some (.ok sub, v) =>
      match resolveNamesF g recur ns v with
      | some (.ok r, v') => some (.ok (sub ++ r), v')
      | other => other
    | some (.error e, v) => some (.error e, v)
    | none => none

/-- The `for cmd_str in bundle.cmd.to_vec()` loop of
`resolve_bundle_inner`: literals are kept, references are expanded via
`recur`, group wildcards expand their members in sorted order.  The
first error aborts the loop (Rust's `?`). -/
def resolveCmdsF (cfg : Config) (recur : Str → List Str → FlatRes) :
    List Str → List Str → FlatRes
  | [], visited => some (.ok [], visited)
  | c :: cs, visited =>
    match parse_ref c with
    | .Command cmd =>
      match resolveCmdsF cfg recur cs visited with
      | some (.ok r, v) => some (.ok (cmd :: r), v)
      | other => other
    | .BundleRef group name =>
      match recur (mkPath group name) visited with
      | some (.ok sub, v) =>
        match resolveCmdsF cfg recur cs v with
        | some (.ok r, v') => some (.ok (sub ++ r), v')
        | other => other
      | some (.error e, v) => some (.error e, v)
      | none => none
    | .GroupAll group =>
      match cfg.get_group group with
      | none => some (.error (.BundleNotFound (groupErr group)), visited)
      | some entries =>
        match resolveNamesF group recur (sortedKeys entries) visited with
        | some (.ok sub, v) =>
          match resolveCmdsF cfg recur cs v with
          | some (.ok r, v') => some (.ok (sub ++ r), v')
          | other => other
        | some (.error e, v) => some (.error e, v)
        | none => none

/-- `resolve_bundle_inner`, fuel-indexed.  Mirrors the source: fail
`CircularRef` if the path is already being visited, insert it, look the
bundle up (fail `BundleNotFound` without removing the path — the `?`
operator returns before the final `remove`), run the command loop, and
remove the path only on the success path. -/
def resolve_bundle_innerF (cfg : Config) : Nat → Str → List Str → FlatRes
  | 0, _, _ => none
  | fuel + 1, path, visited =>
    if path ∈ visited then some (.error (.CircularRef path), visited)
    else
      match cfg.get_bundle path with
      | none => some (.error (.BundleNotFound path), path :: visited)
      | some b =>
        match resolveCmdsF cfg (fun p v => resolve_bundle_innerF cfg fuel p v)
            b.cmd.to_vec (path :: visited) with
        | some (.ok r, v) => some (.ok r, v.erase path)
        | other => other

/-- Count of bundle paths in the configuration. -/
def numPaths (cfg : Config) : Nat :=
  cfg.bundles.foldr (fun ge n => ge.2.length + n) 0

/-- Fuel that always suffices: frames nest at most `numPaths + 1` deep,
since each nested frame adds a distinct existing path to the visiting
set. -/
def fuelBound (cfg : Config) : Nat := numPaths cfg + 2

/-- `resolve_bundle`: flat resolution from an empty visiting set.  The
fuel-exhausted fallback is unreachable at `fuelBound`. -/
def resolve_bundle (cfg : Config) (path : Str) : Except PanoutError (List Str) :=
  match resolve_bundle_innerF cfg (fuelBound cfg) path [] with
  | some (r, _) => r
  | none => .error (.CircularRef path)

/-! ## Pane-grouped resolution (`resolve_with_panes{_inner}`) -/

/-- One pane-mode step result: the `Result` value (carrying, for the
command loop, the `direct_cmds` accumulated so far), the visiting set
and the `pane_cmds` accumulator as left behind by the call. -/
abbrev PaneRes (α : Type) := Option (Except PanoutError α × List Str × PaneCmds)

/-- The `for name in names` loop of the pane resolver's `GroupAll` arm. -/
def resolvePaneNamesF (g : Str)
    (recur : Str → List Str → PaneCmds → Nat → PaneRes Unit)
    (target_pane : Nat) :
    List Str → List Str → PaneCmds → PaneRes Unit
  | [], visited, pane_cmds => some (.ok (), visited, pane_cmds)
  | n :: ns, visited, pane_cmds =>
    match recur (mkPath g n) visited pane_cmds target_pane with
    | some (.ok _, v, pcs) => resolvePaneNamesF g recur target_pane ns v pcs
    | other => other

/-- The command loop of `resolve_with_panes_inner`: literals accumulate
into `direct_cmds`, references recurse with the current bundle's
effective pane as the inherited pane. -/
def resolvePaneCmdsF (cfg : Config)
    (recur : Str → List Str → PaneCmds → Nat → PaneRes Unit)
    (target_pane : Nat) :
    List Str → List Str → PaneCmds → PaneRes (List Str)
  | [], visited, pane_cmds => some (.ok [], visited, pane_cmds)
  | c :: cs, visited, pane_cmds =>
    match parse_ref c with
    | .Command cmd =>
      match resolvePaneCmdsF cfg recur target_pane cs visited pane_cmds with
      | some (.ok direct, v, pcs) => some (.ok (cmd :: direct), v, pcs)
      | other => other
    | .BundleRef group name =>
      match recur (mkPath group name) visited pane_cmds target_pane with
      | some (.ok _, v, pcs) => resolvePaneCmdsF cfg recur target_pane cs v pcs
      | some (.error e, v, pcs) => some (.error e, v, pcs)
      | none => none
    | .GroupAll group =>
      match cfg.get_group group with
      | none => some (.error (.BundleNotFound (groupErr group)), visited, pane_cmds)
      | some entries =>
        match resolvePaneNamesF group recur target_pane (sortedKeys entries)
            visited pane_cmds with
        | some (.ok _, v, pcs) => resolvePaneCmdsF cfg recur target_pane cs v pcs
        | some (.error e, v, pcs) => some (.error e, v, pcs)
        | none => none

/-- Lines 186–190 of `resolver.rs`: extend the first entry with the
given pane index, or push a new entry at the end. -/
def extendOrPush : PaneCmds → Nat → List Str → PaneCmds
  | [], p, ds => [(p, ds)]
  | (q, cs) :: rest, p, ds =>
    if q = p then (q, cs ++ ds) :: rest else (q, cs) :: extendOrPush rest p ds

/-- Lines 185–191 of `resolver.rs`: merge a bundle's direct commands
into the accumulator — only when there is at least one. -/
def mergePane (pane_cmds : PaneCmds) (target_pane : Nat) (direct_cmds : List Str) :
    PaneCmds :=
  if direct_cmds = [] then pane_cmds else extendOrPush pane_cmds target_pane direct_cmds

/-- `resolve_with_panes_inner`, fuel-indexed: same frame shape as the
flat resolver, plus the effective pane `bundle.pane.unwrap_or(default_pane)`
and the post-loop merge of the direct commands. -/
def resolve_with_panes_innerF (cfg : Config) :
    Nat → Str → List Str → PaneCmds → Nat → PaneRes Unit
  | 0, _, _, _, _ => none
  | fuel + 1, path, visited, pane_cmds, default_pane =>
    if path ∈ visited then some (.error (.CircularRef path), visited, pane_cmds)
    else
      match cfg.get_bundle path with
      | none => some (.error (.BundleNotFound path), path :: visited, pane_cmds)
      | some b =>
        let target_pane := b.pane.getD default_pane
        match resolvePaneCmdsF cfg
            (fun p v pcs d => resolve_with_panes_innerF cfg fuel p v pcs d)
            target_pane b.cmd.to_vec (path :: visited) pane_cmds with
        | some (.ok direct, v, pcs) =>
          some (.ok (), v.erase path, mergePane pcs target_pane direct)
        | some (.error e, v, pcs) => some (.error e, v, pcs)
        | none => none

/-- `resolve_with_panes`: pane-grouped resolution, starting from an
empty visiting set, an empty accumulator and inherited pane `0`; on
error the accumulator is discarded (the caller only gets the error). -/
def resolve_with_panes (cfg : Config) (path : Str) :
    Except PanoutError PaneCmds :=
  match resolve_with_panes_innerF cfg (fuelBound cfg) path [] [] 0 with
  | some (.ok _, _, pcs) => .ok pcs
  | some (.error e, _, _) => .error e
  | none => .error (.CircularRef path)


/-! ## Visiting-set restoration on success -/

theorem resolveCmdsF_lit (cfg : Config) (recur : Str → List Str → FlatRes)
    (pre : List Str) (hpre : ∀ s ∈ pre, parse_ref s = .Command s) :
    ∀ cs v, resolveCmdsF cfg recur (pre ++ cs) v =
      match resolveCmdsF cfg recur cs v with
      | some (.ok r, v') => some (.ok (pre ++ r), v')
      | other => other := by
  induction pre with
  | nil =>
    intro cs v
    cases h : resolveCmdsF cfg recur cs v with
    | none => exact h
    | some rv =>
      obtain ⟨r, v'⟩ := rv
      cases r <;> simpa using h
  | cons p pre ih =>
    intro cs v
    have hp : parse_ref p = .Command p := hpre p (by simp)
    have hrest : ∀ s ∈ pre, parse_ref s = .Command s := fun s hs => hpre s (by simp [hs])
    show resolveCmdsF cfg recur (p :: (pre ++ cs)) v = _
    rw [resolveCmdsF, hp, ih hrest cs v]
    cases h : resolveCmdsF cfg recur cs v with
    | none => simp
    | some rv =>
      obtain ⟨r, v'⟩ := rv
      cases r <;> simp

theorem resolveCmdsF_all_lit (cfg : Config) (recur : Str → List Str → FlatRes)
    (cmds : List Str) (h : ∀ s ∈ cmds, parse_ref s = .Command s) (v : List Str) :
    resolveCmdsF cfg recur cmds v = some (.ok cmds, v) := by
  have := resolveCmdsF_lit cfg recur cmds h [] v
  simpa [resolveCmdsF] using this

theorem resolveNamesF_ok_visited (g : Str) (recur : Str → List Str → FlatRes)
    (hrec : ∀ q v r v', recur q v = some (.ok r, v') → v' = v) :
    ∀ ns v r v', resolveNamesF g recur ns v = some (.ok r, v') → v' = v := by
  intro ns
  induction ns with
  | nil => intro v r v' h; simp [resolveNamesF] at h; exact h.2.symm
  | cons n ns ih =>
    intro v r v' h
    rw [resolveNamesF] at h
    cases hr : recur (mkPath g n) v with
    | none => simp [hr] at h
    | some rv =>
      obtain ⟨res, v₀⟩ := rv
      cases res with
      | error e => simp [hr] at h
      | ok sub =>
        simp only [hr] at h
        cases h2 : resolveNamesF g recur ns v₀ with
        | none => simp [h2] at h
        | some rv2 =>
          obtain ⟨res2, v₁⟩ := rv2
          cases res2 with
          | error e => simp [h2] at h
          | ok r2 =>
            simp only [h2] at h
            simp at h
            rw [← h.2, ih v₀ r2 v₁ h2, hrec _ _ _ _ hr]

theorem resolveCmdsF_ok_visited (cfg : Config) (recur : Str → List Str → FlatRes)
    (hrec : ∀ q v r v', recur q v = some (.ok r, v') → v' = v) :
    ∀ cs v r v', resolveCmdsF cfg recur cs v = some (.ok r, v') → v' = v := by
  intro cs
  induction cs with
  | nil => intro v r v' h; simp [resolveCmdsF] at h; exact h.2.symm
  | cons c cs ih =>
    intro v r v' h
    rw [resolveCmdsF] at h
    cases hp : parse_ref c with
    | Command cmd =>
      simp only [hp] at h
      cases h2 : resolveCmdsF cfg recur cs v with
      | none => simp [h2] at h
      | some rv =>
        obtain ⟨res, v₀⟩ := rv
        cases res with
        | error e => simp [h2] at h
        | ok r2 =>
          simp only [h2] at h
          simp at h
          rw [← h.2, ih v r2 v₀ h2]
    | BundleRef group name =>
      simp only [hp] at h
      cases hr : recur (mkPath group name) v with
      | none => simp [hr] at h
      | some rv =>
        obtain ⟨res, v₀⟩ := rv
        cases res with
        | error e => simp [hr] at h
        | ok sub =>
          simp only [hr] at h
          cases h2 : resolveCmdsF cfg recur cs v₀ with
          | none => simp [h2] at h
          | some rv2 =>
            obtain ⟨res2, v₁⟩ := rv2
            cases res2 with
            | error e => simp [h2] at h
            | ok r2 =>
              simp only [h2] at h
              simp at h
              rw [← h.2, ih v₀ r2 v₁ h2, hrec _ _ _ _ hr]
    | GroupAll group =>
      simp only [hp] at h
      cases hg : cfg.get_group group with
      | none => simp [hg] at h
      | some entries =>
        simp only [hg] at h
        cases hr : resolveNamesF group recur (sortedKeys entries) v with
        | none => simp [hr] at h
        | some rv =>
          obtain ⟨res, v₀⟩ := rv
          cases res with
          | error e => simp [hr] at h
          | ok sub =>
            simp only [hr] at h
            cases h2 : resolveCmdsF cfg recur cs v₀ with
            | none => simp [h2] at h
            | some rv2 =>
              obtain ⟨res2, v₁⟩ := rv2
              cases res2 with
              | error e => simp [h2] at h
              | ok r2 =>
                simp only [h2] at h
                simp at h
                rw [← h.2, ih v₀ r2 v₁ h2,
                  resolveNamesF_ok_visited group recur hrec _ _ _ _ hr]

theorem resolve_bundle_innerF_ok_visited (cfg : Config) :
    ∀ fuel p v r v', resolve_bundle_innerF cfg fuel p v = some (.ok r, v') → v' = v := by
  intro fuel
  induction fuel with
  | zero => intro p v r v' h; cases h
  | succ fuel ih =>
    intro p v r v' h
    rw [resolve_bundle_innerF] at h
    by_cases hmem : p ∈ v
    · simp [hmem] at h
    · rw [if_neg hmem] at h
      cases hb : cfg.get_bundle p with
      | none => simp [hb] at h
      | some b =>
        simp only [hb] at h
        cases h2 : resolveCmdsF cfg (fun p v => resolve_bundle_innerF cfg fuel p v)
            b.cmd.to_vec (p :: v) with
        | none => simp [h2] at h
        | some rv =>
          obtain ⟨res, v₀⟩ := rv
          cases res with
          | error e => simp [h2] at h
          | ok r2 =>
            simp only [h2] at h
            simp at h
            have hv₀ : v₀ = p :: v :=
              resolveCmdsF_ok_visited cfg _ (fun q w r w' hq => ih q w r w' hq) _ _ _ _ h2
            rw [← h.2, hv₀, List.erase_cons_head]

/-- On success, the pane-mode group loop hands the visiting set back
unchanged, provided each recursive call does. -/
theorem resolvePaneNamesF_ok_visited (g : Str)
    (recur : Str → List Str → PaneCmds → Nat → PaneRes Unit) (tp : Nat)
    (hrec : ∀ q v pcs d r v' pcs',
      recur q v pcs d = some (.ok r, v', pcs') → v' = v) :
    ∀ ns v pcs r v' pcs',
      resolvePaneNamesF g recur tp ns v pcs = some (.ok r, v', pcs') → v' = v := by
  intro ns
  induction ns with
  | nil =>
    intro v pcs r v' pcs' h
    simp [resolvePaneNamesF] at h
    exact h.1.symm
  | cons n ns ih =>
    intro v pcs r v' pcs' h
    rw [resolvePaneNamesF] at h
    cases hr : recur (mkPath g n) v pcs tp with
    | none => simp [hr] at h
    | some rv =>
      obtain ⟨res, v₀, pcs₀⟩ := rv
      cases res with
      | error e => simp [hr] at h
      | ok u =>
        simp only [hr] at h
        rw [ih v₀ pcs₀ r v' pcs' h, hrec _ _ _ _ _ _ _ hr]

/-- On success, the pane-mode command loop hands the visiting set back
unchanged, provided each recursive call does. -/
theorem resolvePaneCmdsF_ok_visited (cfg : Config)
    (recur : Str → List Str → PaneCmds → Nat → PaneRes Unit) (tp : Nat)
    (hrec : ∀ q v pcs d r v' pcs',
      recur q v pcs d = some (.ok r, v', pcs') → v' = v) :
    ∀ cs v pcs r v' pcs',
      resolvePaneCmdsF cfg recur tp cs v pcs = some (.ok r, v', pcs') → v' = v := by
  intro cs
  induction cs with
  | nil =>
    intro v pcs r v' pcs' h
    simp [resolvePaneCmdsF] at h
    exact h.2.1.symm
  | cons c cs ih =>
    intro v pcs r v' pcs' h
    rw [resolvePaneCmdsF] at h
    cases hp : parse_ref c with
    | Command cmd =>
      simp only [hp] at h
      cases h2 : resolvePaneCmdsF cfg recur tp cs v pcs with
      | none => simp [h2] at h
      | some rv =>
        obtain ⟨res, v₀, pcs₀⟩ := rv
        cases res with
        | error e => simp [h2] at h
        | ok direct =>
          simp only [h2] at h
          simp at h
          rw [← h.2.1, ih v pcs direct v₀ pcs₀ h2]
    | BundleRef group name =>
      simp only [hp] at h
      cases hr : recur (mkPath group name) v pcs tp with
      | none => simp [hr] at h
      | some rv =>
        obtain ⟨res, v₀, pcs₀⟩ := rv
        cases res with
        | error e => simp [hr] at h
        | ok u =>
          simp only [hr] at h
          rw [ih v₀ pcs₀ r v' pcs' h, hrec _ _ _ _ _ _ _ hr]
    | GroupAll group =>
      simp only [hp] at h
      cases hg : cfg.get_group group with
      | none => simp [hg] at h
      | some entries =>
        simp only [hg] at h
        cases hr : resolvePaneNamesF group recur tp (sortedKeys entries) v pcs with
        | none => simp [hr] at h
        | some rv =>
          obtain ⟨res, v₀, pcs₀⟩ := rv
          cases res with
          | error e => simp [hr] at h
          | ok u =>
            simp only [hr] at h
            rw [ih v₀ pcs₀ r v' pcs' h,
              resolvePaneNamesF_ok_visited group recur tp hrec _ _ _ _ _ _ hr]

/-- On success, the pane-mode resolver restores the visiting set (the
final `visited.remove(bundle_path)` of `resolve_with_panes_inner`). -/
theorem resolve_with_panes_innerF_ok_visited (cfg : Config) :
    ∀ fuel p v pcs d r v' pcs',
      resolve_with_panes_innerF cfg fuel p v pcs d = some (.ok r, v', pcs') → v' = v := by
  intro fuel
  induction fuel with
  | zero => intro p v pcs d r v' pcs' h; cases h
  | succ fuel ih =>
    intro p v pcs d r v' pcs' h
    rw [resolve_with_panes_innerF] at h
    by_cases hmem : p ∈ v
    · simp [hmem] at h
    · rw [if_neg hmem] at h
      cases hb : cfg.get_bundle p with
      | none => simp [hb] at h
      | some b =>
        simp only [hb] at h
        cases h2 : resolvePaneCmdsF cfg
            (fun p v pcs d => resolve_with_panes_innerF cfg fuel p v pcs d)
            (b.pane.getD d) b.cmd.to_vec (p :: v) pcs with
        | none => simp [h2] at h
        | some rv =>
          obtain ⟨res, v₀, pcs₀⟩ := rv
          cases res with
          | error e => simp [h2] at h
          | ok direct =>
            simp only [h2] at h
            simp at h
            have hv₀ : v₀ = p :: v :=
              resolvePaneCmdsF_ok_visited cfg _ _
                (fun q w pc dd rr w' pc' hq => ih q w pc dd rr w' pc' hq) _ _ _ _ _ _ h2
            rw [← h.1, hv₀, List.erase_cons_head]

/-! ## How the pane accumulator may change (claim C5's invariant)

`paneExt pcs pcs'` says `pcs'` arises from `pcs` the only way the pane
resolver can produce it: every existing entry keeps its position and
pane index and its command list only grows at the end, and any entries
appended after them carry at least one command. -/

/-- `xs` is an initial run of `ys`. -/
def listPre (xs ys : List Str) : Bool := decide (ys.take xs.length = xs)

/-- The pane accumulator evolution relation (see section comment). -/
def paneExt : PaneCmds → PaneCmds → Bool
  | [], news => news.all (fun e => decide (e.2 ≠ []))
  | _ :: _, [] => false
  | (p, _cs) :: rest, (q, ds) :: rest' =>
    decide (q = p) && listPre _cs ds && paneExt rest rest'

theorem listPre_refl (xs : List Str) : listPre xs xs = true := by
  simp [listPre, List.take_length]

theorem listPre_append (xs t : List Str) : listPre xs (xs ++ t) = true := by
  simp [listPre, List.take_left]

theorem listPre_trans {xs ys zs : List Str} (h1 : listPre xs ys = true)
    (h2 : listPre ys zs = true) : listPre xs zs = true := by
  simp only [listPre, decide_eq_true_eq] at *
  have hlen : xs.length ≤ ys.length := by
    conv_lhs => rw [← h1]
    simp
  calc zs.take xs.length = (zs.take ys.length).take xs.length := by
        rw [List.take_take, Nat.min_eq_left hlen]
    _ = ys.take xs.length := by rw [h2]
    _ = xs := h1

theorem listPre_ne_nil {xs ys : List Str} (h : listPre xs ys = true)
    (hne : xs ≠ []) : ys ≠ [] := by
  intro hys
  subst hys
  simp only [listPre, List.take_nil, decide_eq_true_eq] at h
  exact hne h.symm

theorem paneExt_refl (pcs : PaneCmds) : paneExt pcs pcs = true := by
  induction pcs with
  | nil => simp [paneExt]
  | cons e rest ih =>
    obtain ⟨p, cs⟩ := e
    simp [paneExt, listPre_refl, ih]

theorem paneExt_all_ne_nil {b c : PaneCmds} (h : paneExt b c = true)
    (hb : ∀ e ∈ b, e.2 ≠ []) : ∀ e ∈ c, e.2 ≠ [] := by
  induction b generalizing c with
  | nil =>
    simp only [paneExt, List.all_eq_true, decide_eq_true_eq] at h
    exact h
  | cons e rest ih =>
    obtain ⟨p, cs⟩ := e
    cases c with
    | nil => simp [paneExt] at h
    | cons f rest' =>
      obtain ⟨q, ds⟩ := f
      simp only [paneExt, Bool.and_eq_true, decide_eq_true_eq] at h
      intro x hx
      rcases List.mem_cons.mp hx with hx | hx
      · subst hx
        exact listPre_ne_nil h.1.2 (hb (p, cs) (by simp))
      · exact ih h.2 (fun y hy => hb y (by simp [hy])) x hx

theorem paneExt_trans {a b c : PaneCmds} (h1 : paneExt a b = true)
    (h2 : paneExt b c = true) : paneExt a c = true := by
  induction a generalizing b c with
  | nil =>
    simp only [paneExt, List.all_eq_true, decide_eq_true_eq] at h1 ⊢
    exact paneExt_all_ne_nil h2 h1
  | cons e rest ih =>
    obtain ⟨p, cs⟩ := e
    cases b with
    | nil => simp [paneExt] at h1
    | cons f rest' =>
      obtain ⟨q, ds⟩ := f
      cases c with
      | nil => simp [paneExt] at h2
      | cons g rest'' =>
        obtain ⟨u, es⟩ := g
        simp only [paneExt, Bool.and_eq_true, decide_eq_true_eq] at h1 h2 ⊢
        exact ⟨⟨h2.1.1.trans h1.1.1, listPre_trans h1.1.2 h2.1.2⟩,
          ih h1.2 h2.2⟩

theorem paneExt_extendOrPush (pcs : PaneCmds) (p : Nat) (ds : List Str)
    (hds : ds ≠ []) : paneExt pcs (extendOrPush pcs p ds) = true := by
  induction pcs with
  | nil => simp [extendOrPush, paneExt, hds]
  | cons e rest ih =>
    obtain ⟨q, cs⟩ := e
    by_cases hq : q = p
    · simp [extendOrPush, hq, paneExt, listPre_append, paneExt_refl]
    · simp [extendOrPush, hq, paneExt, listPre_refl, ih]

theorem paneExt_mergePane (pcs : PaneCmds) (p : Nat) (ds : List Str) :
    paneExt pcs (mergePane pcs p ds) = true := by
  by_cases hds : ds = []
  · simp [mergePane, hds, paneExt_refl]
  · simp [mergePane, hds, paneExt_extendOrPush pcs p ds hds]

/-- The pane indexes of the accumulator after `extendOrPush`: unchanged
when the pane already has an entry, the new pane appended otherwise. -/
theorem extendOrPush_keys (pcs : PaneCmds) (p : Nat) (ds : List Str) :
    (extendOrPush pcs p ds).map Prod.fst =
      if p ∈ pcs.map Prod.fst then pcs.map Prod.fst
      else pcs.map Prod.fst ++ [p] := by
  induction pcs with
  | nil => simp [extendOrPush]
  | cons e rest ih =>
    obtain ⟨q, cs⟩ := e
    by_cases hq : q = p
    · simp [extendOrPush, hq]
    · simp only [extendOrPush, if_neg hq, List.map_cons, ih]
      have : p ∈ q :: rest.map Prod.fst ↔ p ∈ rest.map Prod.fst := by
        simp [eq_comm (a := p) (b := q), hq]
      by_cases hp : p ∈ rest.map Prod.fst <;> simp [hp, hq, Ne.symm hq]

theorem mergePane_keys_nodup (pcs : PaneCmds) (p : Nat) (ds : List Str)
    (h : (pcs.map Prod.fst).Nodup) :
    ((mergePane pcs p ds).map Prod.fst).Nodup := by
  by_cases hds : ds = []
  · simpa [mergePane, hds] using h
  · rw [mergePane, if_neg hds, extendOrPush_keys]
    by_cases hp : p ∈ pcs.map Prod.fst
    · simpa [hp] using h
    · simp only [if_neg hp]
      rw [List.nodup_append]
      exact ⟨h, by simp, by simpa using hp⟩

/-- One admissible accumulator evolution: the shape relation plus
preservation of distinct pane indexes. -/
def PaneStep (pcs pcs' : PaneCmds) : Prop :=
  paneExt pcs pcs' = true ∧
    ((pcs.map Prod.fst).Nodup → (pcs'.map Prod.fst).Nodup)

theorem PaneStep.rfl (pcs : PaneCmds) : PaneStep pcs pcs :=
  ⟨paneExt_refl pcs, id⟩

theorem PaneStep.trans {a b c : PaneCmds} (h1 : PaneStep a b) (h2 : PaneStep b c) :
    PaneStep a c :=
  ⟨paneExt_trans h1.1 h2.1, fun h => h2.2 (h1.2 h)⟩

theorem PaneStep.merge (pcs : PaneCmds) (p : Nat) (ds : List Str) :
    PaneStep pcs (mergePane pcs p ds) :=
  ⟨paneExt_mergePane pcs p ds, mergePane_keys_nodup pcs p ds⟩

/-- The pane-mode group loop only evolves the accumulator admissibly,
whatever it returns, provided each recursive call does. -/
theorem resolvePaneNamesF_step (g : Str)
    (recur : Str → List Str → PaneCmds → Nat → PaneRes Unit) (tp : Nat)
    (hrec : ∀ q v pcs d res v' pcs',
      recur q v pcs d = some (res, v', pcs') → PaneStep pcs pcs') :
    ∀ ns v pcs res v' pcs',
      resolvePaneNamesF g recur tp ns v pcs = some (res, v', pcs') →
        PaneStep pcs pcs' := by
  intro ns
  induction ns with
  | nil =>
    intro v pcs res v' pcs' h
    simp [resolvePaneNamesF] at h
    exact h.2.2 ▸ PaneStep.rfl pcs
  | cons n ns ih =>
    intro v pcs res v' pcs' h
    rw [resolvePaneNamesF] at h
    cases hr : recur (mkPath g n) v pcs tp with
    | none => simp [hr] at h
    | some rv =>
      obtain ⟨res₀, v₀, pcs₀⟩ := rv
      cases res₀ with
      | error e =>
        simp only [hr] at h
        simp at h
        exact h.2.2 ▸ hrec _ _ _ _ _ _ _ hr
      | ok u =>
        simp only [hr] at h
        exact (hrec _ _ _ _ _ _ _ hr).trans (ih v₀ pcs₀ res v' pcs' h)

/-- The pane-mode command loop only evolves the accumulator admissibly,
whatever it returns, provided each recursive call does. -/
theorem resolvePaneCmdsF_step (cfg : Config)
    (recur : Str → List Str → PaneCmds → Nat → PaneRes Unit) (tp : Nat)
    (hrec : ∀ q v pcs d res v' pcs',
      recur q v pcs d = some (res, v', pcs') → PaneStep pcs pcs') :
    ∀ cs v pcs res v' pcs',
      resolvePaneCmdsF cfg recur tp cs v pcs = some (res, v', pcs') →
        PaneStep pcs pcs' := by
  intro cs
  induction cs with
  | nil =>
    intro v pcs res v' pcs' h
    simp [resolvePaneCmdsF] at h
    exact h.2.2 ▸ PaneStep.rfl pcs
  | cons c cs ih =>
    intro v pcs res v' pcs' h
    rw [resolvePaneCmdsF] at h
    cases hp : parse_ref c with
    | Command cmd =>
      simp only [hp] at h
      cases h2 : resolvePaneCmdsF cfg recur tp cs v pcs with
      | none => simp [h2] at h
      | some rv =>
        obtain ⟨res₀, v₀, pcs₀⟩ := rv
        cases res₀ with
        | error e =>
          simp only [h2] at h
          simp at h
          exact h.2.2 ▸ ih _ _ _ _ _ h2
        | ok direct =>
          simp only [h2] at h
          simp at h
          exact h.2.2 ▸ ih _ _ _ _ _ h2
    | BundleRef group name =>
      simp only [hp] at h
      cases hr : recur (mkPath group name) v pcs tp with
      | none => simp [hr] at h
      | some rv =>
        obtain ⟨res₀, v₀, pcs₀⟩ := rv
        cases res₀ with
        | error e =>
          simp only [hr] at h
          simp at h
          exact h.2.2 ▸ hrec _ _ _ _ _ _ _ hr
        | ok u =>
          simp only [hr] at h
          exact (hrec _ _ _ _ _ _ _ hr).trans (ih v₀ pcs₀ res v' pcs' h)
    | GroupAll group =>
      simp only [hp] at h
      cases hg : cfg.get_group group with
      | none =>
        simp only [hg] at h
        simp at h
        exact h.2.2 ▸ PaneStep.rfl pcs
      | some entries =>
        simp only [hg] at h
        cases hr : resolvePaneNamesF group recur tp (sortedKeys entries) v pcs with
        | none => simp [hr] at h
        | some rv =>
          obtain ⟨res₀, v₀, pcs₀⟩ := rv
          cases res₀ with
          | error e =>
            simp only [hr] at h
            simp at h
            exact h.2.2 ▸ resolvePaneNamesF_step group recur tp hrec _ _ _ _ _ _ hr
          | ok u =>
            simp only [hr] at h
            exact (resolvePaneNamesF_step group recur tp hrec _ _ _ _ _ _ hr).trans
              (ih v₀ pcs₀ res v' pcs' h)

/-- The pane-mode resolver only evolves the accumulator admissibly,
whatever it returns. -/
theorem resolve_with_panes_innerF_step (cfg : Config) :
    ∀ fuel p v pcs d res v' pcs',
      resolve_with_panes_innerF cfg fuel p v pcs d = some (res, v', pcs') →
        PaneStep pcs pcs' := by
  intro fuel
  induction fuel with
  | zero => intro p v pcs d res v' pcs' h; cases h
  | succ fuel ih =>
    intro p v pcs d res v' pcs' h
    rw [resolve_with_panes_innerF] at h
    by_cases hmem : p ∈ v
    · simp [hmem] at h
      exact h.2.2 ▸ PaneStep.rfl pcs
    · rw [if_neg hmem] at h
      cases hb : cfg.get_bundle p with
      | none =>
        simp [hb] at h
        exact h.2.2 ▸ PaneStep.rfl pcs
      | some b =>
        simp only [hb] at h
        cases h2 : resolvePaneCmdsF cfg
            (fun p v pcs d => resolve_with_panes_innerF cfg fuel p v pcs d)
            (b.pane.getD d) b.cmd.to_vec (p :: v) pcs with
        | none => simp [h2] at h
        | some rv =>
          obtain ⟨res₀, v₀, pcs₀⟩ := rv
          have hstep : PaneStep pcs pcs₀ :=
            resolvePaneCmdsF_step cfg _ _
              (fun q w pc dd rr w' pc' hq => ih q w pc dd rr w' pc' hq) _ _ _ _ _ _ h2
          cases res₀ with
          | error e =>
            simp only [h2] at h
            simp at h
            exact h.2.2 ▸ hstep
          | ok direct =>
            simp only [h2] at h
            simp at h
            exact h.2.2 ▸ hstep.trans (PaneStep.merge pcs₀ (b.pane.getD d) direct)

/-! ## The synthetic-bundle construction and config-agreement lemmas
(claim C8's apparatus) -/

/-- Splitting succeeds exactly by cutting at the separator. -/
theorem splitnFirst_eq {s a b : Str} {c : Char}
    (h : splitnFirst s c = some (a, b)) : s = a ++ c :: b := by
  induction s generalizing a b with
  | nil => cases h
  | cons d ds ih =>
    rw [splitnFirst] at h
    by_cases hd : d = c
    · simp [hd] at h
      obtain ⟨h1, h2⟩ := h
      rw [hd, h1, ← h2]
      rfl
    · rw [if_neg hd] at h
      cases h2 : splitnFirst ds c with
      | none => simp [h2] at h
      | some ab =>
        obtain ⟨a', b'⟩ := ab
        simp [h2] at h
        obtain ⟨ha, hb⟩ := h
        rw [← ha, ← hb, ih h2]
        rfl

/-- Looking a key up in a key-preserving rewrite of an association list
rewrites the found value. -/
theorem lookupA_map_keys {α β : Type} (l : List (Str × α))
    (F : Str × α → Str × β) (G : Str → α → β)
    (hF : ∀ kv, F kv = (kv.1, G kv.1 kv.2)) (k : Str) :
    lookupA (l.map F) k = (lookupA l k).map (G k) := by
  induction l with
  | nil => rfl
  | cons kv l ih =>
    obtain ⟨k', v⟩ := kv
    rw [List.map_cons, hF]
    by_cases hk : k' = k
    · subst hk; simp [lookupA]
    · simp [lookupA, hk, ih]

/-- Replace the value stored under entry name `n` (key-preserving). -/
def updEntry (n : Str) (e : BundleEntry) (ne : Str × BundleEntry) :
    Str × BundleEntry :=
  (ne.1, if ne.1 = n then e else ne.2)

/-- Replace entry `n` inside group `g` (key-preserving). -/
def updGroup (g n : Str) (e : BundleEntry)
    (ge : Str × List (Str × BundleEntry)) : Str × List (Str × BundleEntry) :=
  (ge.1, if ge.1 = g then ge.2.map (updEntry n e) else ge.2)

/-- The spec's synthetic bundle: the configuration with the entry at
path `p` replaced by `e` (and left unchanged when `p` is not a
well-formed path). -/
def updateBundle (cfg : Config) (p : Str) (e : BundleEntry) : Config :=
  match splitnFirst p '.' with
  | none => cfg
  | some (g, n) => ⟨cfg.bundles.map (updGroup g n e)⟩

theorem lookupA_updGroup (l : List (Str × List (Str × BundleEntry)))
    (g n : Str) (e : BundleEntry) (k : Str) :
    lookupA (l.map (updGroup g n e)) k =
      (lookupA l k).map (fun v => if k = g then v.map (updEntry n e) else v) :=
  lookupA_map_keys l (updGroup g n e)
    (fun k v => if k = g then v.map (updEntry n e) else v) (fun _ => rfl) k

theorem lookupA_updEntry (entries : List (Str × BundleEntry))
    (n : Str) (e : BundleEntry) (k : Str) :
    lookupA (entries.map (updEntry n e)) k =
      (lookupA entries k).map (fun v => if k = n then e else v) :=
  lookupA_map_keys entries (updEntry n e)
    (fun k v => if k = n then e else v) (fun _ => rfl) k

/-- `get_bundle`, phrased with `Option.bind` for calculation. -/
theorem get_bundle_bind (cfg : Config) (q : Str) :
    cfg.get_bundle q = (splitnFirst q '.').bind
      (fun gn => (lookupA cfg.bundles gn.1).bind
        (fun entries => lookupA entries gn.2)) := by
  cases hs : splitnFirst q '.' with
  | none => simp [Config.get_bundle, hs]
  | some gn =>
    obtain ⟨g, n⟩ := gn
    cases hl : lookupA cfg.bundles g with
    | none => simp [Config.get_bundle, hs, hl]
    | some entries => simp [Config.get_bundle, hs, hl]

/-- `updateBundle` leaves every other path's entry alone. -/
theorem get_bundle_updateBundle_ne (cfg : Config) (p : Str) (e : BundleEntry)
    (q : Str) (hq : q ≠ p) :
    (updateBundle cfg p e).get_bundle q = cfg.get_bundle q := by
  rw [updateBundle]
  cases hp : splitnFirst p '.' with
  | none => rfl
  | some gn =>
    obtain ⟨g, n⟩ := gn
    rw [get_bundle_bind, get_bundle_bind]
    cases hqs : splitnFirst q '.' with
    | none => rfl
    | some gnq =>
      obtain ⟨gq, nq⟩ := gnq
      simp only [Option.bind_some, Option.some_bind]
      show (lookupA (cfg.bundles.map (updGroup g n e)) gq).bind _ = _
      rw [lookupA_updGroup]
      cases hl : lookupA cfg.bundles gq with
      | none => rfl
      | some entries =>
        simp only [Option.map_some', Option.some_bind]
        by_cases hgq : gq = g
        · rw [if_pos hgq, lookupA_updEntry]
          cases hln : lookupA entries nq with
          | none => rfl
          | some b =>
            simp only [Option.map_some']
            by_cases hnq : nq = n
            · exfalso
              apply hq
              rw [splitnFirst_eq hqs, splitnFirst_eq hp, hgq, hnq]
            · rw [if_neg hnq]
        · rw [if_neg hgq]

/-- `updateBundle` replaces the entry at `p` when one exists. -/
theorem get_bundle_updateBundle_self (cfg : Config) (p : Str) (e : BundleEntry)
    (b : BundleEntry) (hb : cfg.get_bundle p = some b) :
    (updateBundle cfg p e).get_bundle p = some e := by
  rw [get_bundle_bind] at hb
  rw [updateBundle]
  cases hp : splitnFirst p '.' with
  | none => rw [hp] at hb; cases hb
  | some gn =>
    obtain ⟨g, n⟩ := gn
    rw [hp] at hb
    simp only [Option.some_bind] at hb
    rw [get_bundle_bind, hp]
    simp only [Option.some_bind]
    show (lookupA (cfg.bundles.map (updGroup g n e)) g).bind _ = _
    rw [lookupA_updGroup]
    cases hl : lookupA cfg.bundles g with
    | none => rw [hl] at hb; cases hb
    | some entries =>
      rw [hl] at hb
      simp only [Option.some_bind] at hb
      simp only [Option.map_some', Option.some_bind, eq_self_iff_true, if_true]
      rw [lookupA_updEntry]
      cases hln : lookupA entries n with
      | none => rw [hln] at hb; cases hb
      | some b' => simp

/-- `updateBundle` does not disturb any group's sorted key list. -/
theorem get_group_updateBundle_keys (cfg : Config) (p : Str) (e : BundleEntry)
    (h : Str) :
    ((updateBundle cfg p e).get_group h).map sortedKeys =
      (cfg.get_group h).map sortedKeys := by
  rw [updateBundle]
  cases hp : splitnFirst p '.' with
  | none => rfl
  | some gn =>
    obtain ⟨g, n⟩ := gn
    rw [Config.get_group, Config.get_group]
    show (lookupA (cfg.bundles.map (updGroup g n e)) h).map sortedKeys = _
    rw [lookupA_updGroup]
    cases hl : lookupA cfg.bundles h with
    | none => rfl
    | some entries =>
      simp only [Option.map_some']
      by_cases hg : h = g
      · rw [if_pos hg]
        congr 1
        rw [sortedKeys, sortedKeys, List.map_map]
        rfl
      · rw [if_neg hg]

/-- `updateBundle` does not change the number of bundle paths. -/
theorem numPaths_updateBundle (cfg : Config) (p : Str) (e : BundleEntry) :
    numPaths (updateBundle cfg p e) = numPaths cfg := by
  rw [updateBundle]
  cases hp : splitnFirst p '.' with
  | none => rfl
  | some gn =>
    obtain ⟨g, n⟩ := gn
    rw [numPaths, numPaths]
    show List.foldr _ 0 (cfg.bundles.map (updGroup g n e)) = _
    induction cfg.bundles with
    | nil => rfl
    | cons ge l ih =>
      simp only [List.map_cons, List.foldr_cons, ih]
      rw [updGroup]
      by_cases hg : ge.1 = g <;> simp [hg]

/-- Success of the group loop preserves any predicate on the visiting
set that each recursive call's success preserves. -/
theorem resolveNamesF_ok_P (g : Str) (recur : Str → List Str → FlatRes)
    (P : List Str → Prop)
    (hok : ∀ q v r v', P v → recur q v = some (.ok r, v') → P v') :
    ∀ ns v r v', P v → resolveNamesF g recur ns v = some (.ok r, v') → P v' := by
  intro ns
  induction ns with
  | nil => intro v r v' hP h; simp [resolveNamesF] at h; exact h.2 ▸ hP
  | cons n ns ih =>
    intro v r v' hP h
    rw [resolveNamesF] at h
    cases hr : recur (mkPath g n) v with
    | none => simp [hr] at h
    | some rv =>
      obtain ⟨res, v₀⟩ := rv
      cases res with
      | error e => simp [hr] at h
      | ok sub =>
        simp only [hr] at h
        cases h2 : resolveNamesF g recur ns v₀ with
        | none => simp [h2] at h
        | some rv2 =>
          obtain ⟨res2, v₁⟩ := rv2
          cases res2 with
          | error e => simp [h2] at h
          | ok r2 =>
            simp only [h2] at h
            simp at h
            exact h.2 ▸ ih v₀ r2 v₁ (hok _ _ _ _ hP hr) h2

/-- The group loop computes the same thing from two recursive calls
that agree on all visiting sets satisfying `P`. -/
theorem resolveNamesF_congr (g : Str) (recurA recurB : Str → List Str → FlatRes)
    (P : List Str → Prop)
    (hrec : ∀ q v, P v → recurA q v = recurB q v)
    (hok : ∀ q v r v', P v → recurB q v = some (.ok r, v') → P v') :
    ∀ ns v, P v → resolveNamesF g recurA ns v = resolveNamesF g recurB ns v := by
  intro ns
  induction ns with
  | nil => intro v _; rfl
  | cons n ns ih =>
    intro v hP
    rw [resolveNamesF, resolveNamesF, hrec _ _ hP]
    cases hr : recurB (mkPath g n) v with
    | none => rfl
    | some rv =>
      obtain ⟨res, v₀⟩ := rv
      cases res with
      | error e => rfl
      | ok sub => simp only [ih v₀ (hok _ _ _ _ hP hr)]

/-- The command loop computes the same thing in two configurations
whose groups have the same sorted key lists, from two recursive calls
that agree on all visiting sets satisfying `P`. -/
theorem resolveCmdsF_congr (cfgA cfgB : Config)
    (recurA recurB : Str → List Str → FlatRes) (P : List Str → Prop)
    (hgrp : ∀ h, (cfgA.get_group h).map sortedKeys = (cfgB.get_group h).map sortedKeys)
    (hrec : ∀ q v, P v → recurA q v = recurB q v)
    (hok : ∀ q v r v', P v → recurB q v = some (.ok r, v') → P v') :
    ∀ cs v, P v → resolveCmdsF cfgA recurA cs v = resolveCmdsF cfgB recurB cs v := by
  intro cs
  induction cs with
  | nil => intro v _; rfl
  | cons c cs ih =>
    intro v hP
    rw [resolveCmdsF, resolveCmdsF]
    cases hp : parse_ref c with
    | Command cmd => simp only [ih v hP]
    | BundleRef group name =>
      simp only [hrec _ _ hP]
      cases hr : recurB (mkPath group name) v with
      | none => rfl
      | some rv =>
        obtain ⟨res, v₀⟩ := rv
        cases res with
        | error e => rfl
        | ok sub => simp only [ih v₀ (hok _ _ _ _ hP hr)]
    | GroupAll group =>
      have hg := hgrp group
      cases hB : cfgB.get_group group with
      | none =>
        rw [hB] at hg
        simp only [Option.map_none'] at hg
        rw [Option.map_eq_none'] at hg
        simp only [hg, hB]
      | some entsB =>
        rw [hB] at hg
        cases hA : cfgA.get_group group with
        | none => rw [hA] at hg; simp at hg
        | some entsA =>
          rw [hA] at hg
          simp only [Option.map_some', Option.some.injEq] at hg
          simp only [hA, hB, hg,
            resolveNamesF_congr group recurA recurB P hrec hok (sortedKeys entsB) v hP]
          cases hr : resolveNamesF group recurB (sortedKeys entsB) v with
          | none => rfl
          | some rv =>
            obtain ⟨res, v₀⟩ := rv
            cases res with
            | error e => rfl
            | ok sub =>
              simp only [ih v₀
                (resolveNamesF_ok_P group recurB P hok _ _ _ _ hP hr)]

/-- Two configurations that agree on every bundle except the one at
`pA`, and on every group's sorted key list, resolve identically from
any visiting set that already contains `pA`. -/
theorem resolve_bundle_innerF_congr (cfg cfg' : Config) (pA : Str)
    (hbun : ∀ q, q ≠ pA → cfg'.get_bundle q = cfg.get_bundle q)
    (hgrp : ∀ h, (cfg'.get_group h).map sortedKeys = (cfg.get_group h).map sortedKeys) :
    ∀ fuel q v, pA ∈ v →
      resolve_bundle_innerF cfg' fuel q v = resolve_bundle_innerF cfg fuel q v := by
  intro fuel
  induction fuel with
  | zero => intro q v _; rfl
  | succ fuel ih =>
    intro q v hP
    rw [resolve_bundle_innerF, resolve_bundle_innerF]
    by_cases hmem : q ∈ v
    · rw [if_pos hmem, if_pos hmem]
    · rw [if_neg hmem, if_neg hmem]
      have hq : q ≠ pA := fun h => hmem (h ▸ hP)
      rw [hbun q hq]
      cases hb : cfg.get_bundle q with
      | none => rfl
      | some b =>
        have hloop := resolveCmdsF_congr cfg' cfg
          (fun p v => resolve_bundle_innerF cfg' fuel p v)
          (fun p v => resolve_bundle_innerF cfg fuel p v)
          (fun v => pA ∈ v) hgrp
          (fun q' v' hP' => ih q' v' hP')
          (fun q' v' r' w' hP' hr' =>
            (resolve_bundle_innerF_ok_visited cfg fuel q' v' r' w' hr') ▸ hP')
          b.cmd.to_vec (q :: v) (List.mem_cons_of_mem q hP)
        simp only [hloop]

/-- A bundle whose commands are all literal resolves, in one frame, to
exactly those commands, restoring the visiting set. -/
theorem resolve_bundle_innerF_all_lit (cfg : Config) (fuel : Nat) (p : Str)
    (v : List Str) (b : BundleEntry) (hv : p ∉ v)
    (hb : cfg.get_bundle p = some b)
    (hlit : ∀ s ∈ b.cmd.to_vec, parse_ref s = .Command s) :
    resolve_bundle_innerF cfg (fuel + 1) p v = some (.ok b.cmd.to_vec, v) := by
  rw [resolve_bundle_innerF, if_neg hv]
  simp only [hb]
  rw [resolveCmdsF_all_lit cfg _ b.cmd.to_vec hlit (p :: v)]
  simp [List.erase_cons_head]

/-- The command-list inlining step: a reference to a bundle holding the
two literal commands `x, y` resolves exactly as the two literals spliced
in its place. -/
theorem resolveCmdsF_inline (cfg : Config) (fuel : Nat) (r x y g n : Str)
    (bB : BundleEntry) (hr : parse_ref r = .BundleRef g n)
    (hB : cfg.get_bundle (mkPath g n) = some bB)
    (hBc : bB.cmd.to_vec = [x, y])
    (hx : parse_ref x = .Command x) (hy : parse_ref y = .Command y)
    (post : List Str) (v : List Str) (hnv : mkPath g n ∉ v) :
    resolveCmdsF cfg (fun p w => resolve_bundle_innerF cfg (fuel + 1) p w) (r :: post) v =
      resolveCmdsF cfg (fun p w => resolve_bundle_innerF cfg (fuel + 1) p w)
        (x :: y :: post) v := by
  have hlit : ∀ s ∈ bB.cmd.to_vec, parse_ref s = .Command s := by
    rw [hBc]
    intro s hs
    rcases List.mem_cons.mp hs with h | hs
    · exact h ▸ hx
    · rcases List.mem_cons.mp hs with h | hs
      · exact h ▸ hy
      · cases hs
  have hcall := resolve_bundle_innerF_all_lit cfg fuel (mkPath g n) v bB hnv hB hlit
  rw [hBc] at hcall
  conv_lhs => rw [resolveCmdsF]
  conv_rhs => rw [resolveCmdsF]
  simp only [hr, hx, hcall]
  conv_rhs => rw [resolveCmdsF]
  simp only [hy]
  cases hpost : resolveCmdsF cfg
      (fun p w => resolve_bundle_innerF cfg (fuel + 1) p w) post v with
  | none => rfl
  | some rv =>
    obtain ⟨res, v'⟩ := rv
    cases res with
    | error e => rfl
    | ok rest => simp

/-! ## The reference grammar as the specification words it (claim C9) -/

/-- Stated from the specification's §4.1 wording, for comparison with
the source's `parse_ref`: no `@` sigil, or a sigil with no `.` after
it, gives a literal `Command` preserving the original string; otherwise
the remainder splits at the first `.` into the group and the rest,
giving `GroupAll` exactly when the rest is `*` and otherwise a
`BundleRef` whose name keeps any further `.` characters. -/
def parse_spec (s : Str) : ResolvedRef :=
  match s with
  | '@' :: rest =>
    if '.' ∈ rest then
      let group := rest.takeWhile (fun d => decide (d ≠ '.'))
      let r := (rest.dropWhile (fun d => decide (d ≠ '.'))).tail
      if r = ['*'] then .GroupAll group else .BundleRef group r
    else .Command s
  | _ => .Command s

theorem splitnFirst_eq_none_of {s : Str} {c : Char} (h : c ∉ s) :
    splitnFirst s c = none := by
  induction s with
  | nil => rfl
  | cons d ds ih =>
    rw [splitnFirst]
    have hd : d ≠ c := fun hh => h (hh ▸ List.mem_cons_self d ds)
    rw [if_neg hd, ih (fun hh => h (List.mem_cons_of_mem d hh))]

theorem splitnFirst_of_mem {s : Str} {c : Char} (h : c ∈ s) :
    splitnFirst s c = some (s.takeWhile (fun d => decide (d ≠ c)),
      (s.dropWhile (fun d => decide (d ≠ c))).tail) := by
  induction s with
  | nil => cases h
  | cons d ds ih =>
    rw [splitnFirst]
    by_cases hd : d = c
    · subst hd
      simp [List.takeWhile, List.dropWhile]
    · have hds : c ∈ ds := by
        rcases List.mem_cons.mp h with hh | hh
        · exact absurd hh.symm hd
        · exact hh
      rw [if_neg hd, ih hds]
      simp [List.takeWhile, List.dropWhile, hd]

/-- Literal commands pass through the pane-mode command loop verbatim,
leaving both the visiting set and the accumulator untouched. -/
theorem resolvePaneCmdsF_all_lit (cfg : Config)
    (recur : Str → List Str → PaneCmds → Nat → PaneRes Unit) (tp : Nat)
    (cmds : List Str) (h : ∀ s ∈ cmds, parse_ref s = .Command s)
    (v : List Str) (pcs : PaneCmds) :
    resolvePaneCmdsF cfg recur tp cmds v pcs = some (.ok cmds, v, pcs) := by
  induction cmds with
  | nil => rfl
  | cons c cs ih =>
    rw [resolvePaneCmdsF, h c (List.mem_cons_self c cs),
      ih (fun s hs => h s (List.mem_cons_of_mem c hs))]

/-- A bundle whose commands are all literal resolves, in one pane-mode
frame, to one `mergePane` of those commands under its effective pane,
restoring the visiting set. -/
theorem resolve_with_panes_innerF_all_lit (cfg : Config) (fuel : Nat) (p : Str)
    (v : List Str) (pcs : PaneCmds) (d : Nat) (b : BundleEntry) (hv : p ∉ v)
    (hb : cfg.get_bundle p = some b)
    (hlit : ∀ s ∈ b.cmd.to_vec, parse_ref s = .Command s) :
    resolve_with_panes_innerF cfg (fuel + 1) p v pcs d =
      some (.ok (), v, mergePane pcs (b.pane.getD d) b.cmd.to_vec) := by
  rw [resolve_with_panes_innerF, if_neg hv]
  simp only [hb]
  rw [resolvePaneCmdsF_all_lit cfg _ _ b.cmd.to_vec hlit (p :: v) pcs]
  simp [List.erase_cons_head]

/-! ## Concrete configurations used as witnesses -/

/-- The path `a.self`. -/
def pSelf : Str := ("a.self").data

/-- A bundle that references its own path. -/
def cfgSelf : Config :=
  ⟨[(("a").data, [(("self").data, { cmd := .Single ("@a.self").data })])]⟩

/-- The empty configuration. -/
def cfgEmpty : Config := ⟨[]⟩

/-- The path `nogroup.noname`. -/
def pNo : Str := ("nogroup.noname").data

/-! ## The claims -/

/-- C1: in both resolvers, entering a path already in the visiting set
fails with `CircularRef` of that path (for any remaining fuel), and in
particular a bundle whose command list reaches a reference to its own
path — after any run of literal commands — makes the whole flat
resolution fail with `CircularRef` of that path. -/
theorem claim_C1 :
    (∀ (cfg : Config) (fuel : Nat) (p : Str) (v : List Str), p ∈ v →
      resolve_bundle_innerF cfg (fuel + 1) p v =
        some (.error (.CircularRef p), v)) ∧
    (∀ (cfg : Config) (fuel : Nat) (p : Str) (v : List Str) (pcs : PaneCmds)
        (d : Nat), p ∈ v →
      resolve_with_panes_innerF cfg (fuel + 1) p v pcs d =
        some (.error (.CircularRef p), v, pcs)) ∧
    (∀ (cfg : Config) (p : Str) (b : BundleEntry) (pre rest : List Str)
        (c g n : Str),
      cfg.get_bundle p = some b →
      b.cmd.to_vec = pre ++ c :: rest →
      (∀ s ∈ pre, parse_ref s = .Command s) →
      parse_ref c = .BundleRef g n →
      mkPath g n = p →
      resolve_bundle cfg p = .error (.CircularRef p)) := by
  refine ⟨?_, ?_, ?_⟩
  · intro cfg fuel p v hmem
    rw [resolve_bundle_innerF, if_pos hmem]
  · intro cfg fuel p v pcs d hmem
    rw [resolve_with_panes_innerF, if_pos hmem]
  · intro cfg p b pre rest c g n hb hcmd hpre hc hmk
    have hcirc : resolve_bundle_innerF cfg (numPaths cfg + 1) p [p] =
        some (.error (.CircularRef p), [p]) := by
      rw [resolve_bundle_innerF, if_pos (List.mem_singleton.mpr rfl)]
    rw [resolve_bundle, show fuelBound cfg = (numPaths cfg + 1) + 1 from rfl,
      resolve_bundle_innerF, if_neg (List.not_mem_nil p)]
    simp only [hb, hcmd]
    rw [resolveCmdsF_lit cfg _ pre hpre (c :: rest) [p]]
    rw [resolveCmdsF]
    simp only [hc, hmk, hcirc]

/-- C1 instantiated: the self-referencing bundle `a.self` of `cfgSelf`
fails with `CircularRef("a.self")`, and both inner resolvers fail the
same way when `a.self` is already being visited. -/
theorem claim_C1_witness :
    resolve_bundle_innerF cfgSelf 1 pSelf [pSelf] =
      some (.error (.CircularRef pSelf), [pSelf]) ∧
    resolve_with_panes_innerF cfgSelf 1 pSelf [pSelf] [] 0 =
      some (.error (.CircularRef pSelf), [pSelf], []) ∧
    resolve_bundle cfgSelf pSelf = .error (.CircularRef pSelf) :=
  ⟨claim_C1.1 cfgSelf 0 pSelf [pSelf] (by decide),
   claim_C1.2.1 cfgSelf 0 pSelf [pSelf] [] 0 (by decide),
   claim_C1.2.2 cfgSelf pSelf { cmd := .Single ("@a.self").data } [] []
     (("@a.self").data) (("a").data) (("self").data)
     (by decide) (by decide) (by simp) (by decide) (by decide)⟩

/-- The one-bundle configuration `[g.x]`, `pane = 2`, `cmd = "echo hi"`. -/
def cfgPane : Config :=
  ⟨[(("g").data, [(("x").data,
    { cmd := .Single ("echo hi").data, pane := some 2 })])]⟩

/-- The path `g.x`. -/
def pGX : Str := ("g.x").data

/-- C3 as stated is false: an error exit does not remove the path from
the visiting set.  Resolving the absent path `nogroup.noname` in the
empty configuration fails `BundleNotFound` and returns the visiting set
with the path still inserted. -/
theorem claim_C3_counterexample :
    ¬ (∀ (cfg : Config) (fuel : Nat) (p : Str) (v : List Str)
        (res : Except PanoutError (List Str)) (v' : List Str),
        resolve_bundle_innerF cfg fuel p v = some (res, v') → v' = v) := by
  intro h
  have := h cfgEmpty 2 pNo [] (.error (.BundleNotFound pNo)) [pNo] (by decide)
  exact absurd this (by decide)

/-- C3 (amended): each recursive resolution call removes its path from
the visiting set on every SUCCESSFUL exit, in both modes — after an
inner call returns `Ok`, the visiting set equals its value at the
call's entry; an error exit may leave the path inserted, which is
unobservable because the error aborts the entire resolution. -/
theorem claim_C3 :
    (∀ (cfg : Config) (fuel : Nat) (p : Str) (v : List Str) (r : List Str)
        (v' : List Str),
      resolve_bundle_innerF cfg fuel p v = some (.ok r, v') → v' = v) ∧
    (∀ (cfg : Config) (fuel : Nat) (p : Str) (v : List Str) (pcs : PaneCmds)
        (d : Nat) (r : Unit) (v' : List Str) (pcs' : PaneCmds),
      resolve_with_panes_innerF cfg fuel p v pcs d = some (.ok r, v', pcs') →
        v' = v) :=
  ⟨fun cfg => resolve_bundle_innerF_ok_visited cfg,
   fun cfg => resolve_with_panes_innerF_ok_visited cfg⟩

/-- C3 (amended) instantiated: a successful call on `g.x` from the
visiting set `[a.self]` hands that set back unchanged, in both modes. -/
theorem claim_C3_witness :
    resolve_bundle_innerF cfgPane 1 pGX [pSelf] =
      some (.ok [("echo hi").data], [pSelf]) ∧
    resolve_with_panes_innerF cfgPane 1 pGX [pSelf] [] 0 =
      some (.ok (), [pSelf], [(2, [("echo hi").data])]) ∧
    [pSelf] = [pSelf] ∧ [pSelf] = [pSelf] :=
  ⟨by decide, by decide,
   claim_C3.1 cfgPane 1 pGX [pSelf] [("echo hi").data] [pSelf] (by decide),
   claim_C3.2 cfgPane 1 pGX [pSelf] [] 0 () [pSelf] [(2, [("echo hi").data])]
     (by decide)⟩

/-- C10: a missing bundle path fails `BundleNotFound` with that path in
both modes (the caller gets only the error, no partial output), and a
group wildcard naming an absent group makes either command loop fail
`BundleNotFound` with the group-qualified message. -/
theorem claim_C10 :
    (∀ (cfg : Config) (p : Str), cfg.get_bundle p = none →
      resolve_bundle cfg p = .error (.BundleNotFound p)) ∧
    (∀ (cfg : Config) (p : Str), cfg.get_bundle p = none →
      resolve_with_panes cfg p = .error (.BundleNotFound p)) ∧
    (∀ (cfg : Config) (recur : Str → List Str → FlatRes) (c : Str)
        (cs : List Str) (v : List Str) (g : Str),
      parse_ref c = .GroupAll g → cfg.get_group g = none →
      resolveCmdsF cfg recur (c :: cs) v =
        some (.error (.BundleNotFound (groupErr g)), v)) ∧
    (∀ (cfg : Config) (recur : Str → List Str → PaneCmds → Nat → PaneRes Unit)
        (tp : Nat) (c : Str) (cs : List Str) (v : List Str) (pcs : PaneCmds)
        (g : Str),
      parse_ref c = .GroupAll g → cfg.get_group g = none →
      resolvePaneCmdsF cfg recur tp (c :: cs) v pcs =
        some (.error (.BundleNotFound (groupErr g)), v, pcs)) := by
  refine ⟨?_, ?_, ?_, ?_⟩
  · intro cfg p hb
    rw [resolve_bundle, show fuelBound cfg = (numPaths cfg + 1) + 1 from rfl,
      resolve_bundle_innerF, if_neg (List.not_mem_nil p)]
    simp only [hb]
  · intro cfg p hb
    rw [resolve_with_panes, show fuelBound cfg = (numPaths cfg + 1) + 1 from rfl,
      resolve_with_panes_innerF, if_neg (List.not_mem_nil p)]
    simp only [hb]
  · intro cfg recur c cs v g hc hg
    rw [resolveCmdsF]
    simp only [hc, hg]
  · intro cfg recur tp c cs v pcs g hc hg
    rw [resolvePaneCmdsF]
    simp only [hc, hg]

/-- C10 instantiated: the absent path `nogroup.noname` and the absent
group `zz` fail as claimed on the empty configuration. -/
theorem claim_C10_witness :
    resolve_bundle cfgEmpty pNo = .error (.BundleNotFound pNo) ∧
    resolve_with_panes cfgEmpty pNo = .error (.BundleNotFound pNo) ∧
    resolveCmdsF cfgEmpty (fun _ _ => none) [("@zz.*").data] [] =
      some (.error (.BundleNotFound (groupErr ("zz").data)), []) ∧
    resolvePaneCmdsF cfgEmpty (fun _ _ _ _ => none) 0 [("@zz.*").data] [] [] =
      some (.error (.BundleNotFound (groupErr ("zz").data)), [], []) :=
  ⟨claim_C10.1 cfgEmpty pNo (by decide),
   claim_C10.2.1 cfgEmpty pNo (by decide),
   claim_C10.2.2.1 cfgEmpty (fun _ _ => none) (("@zz.*").data) [] []
     (("zz").data) (by decide) (by decide),
   claim_C10.2.2.2 cfgEmpty (fun _ _ _ _ => none) 0 (("@zz.*").data) [] [] []
     (("zz").data) (by decide) (by decide)⟩

/-- C4: a pane-mode frame accumulates a bundle's literal commands under
its effective pane — its own `pane` field when set, else the inherited
pane `d` — and a top-level call (inherited pane `0`) on a bundle with
`pane = 2` and one literal command yields that command under pane `2`. -/
theorem claim_C4 :
    (∀ (cfg : Config) (fuel : Nat) (p : Str) (v : List Str) (pcs : PaneCmds)
        (d : Nat) (b : BundleEntry),
      p ∉ v → cfg.get_bundle p = some b →
      (∀ s ∈ b.cmd.to_vec, parse_ref s = .Command s) →
      resolve_with_panes_innerF cfg (fuel + 1) p v pcs d =
        some (.ok (), v, mergePane pcs (b.pane.getD d) b.cmd.to_vec)) ∧
    (∀ (cfg : Config) (p : Str) (b : BundleEntry) (cmd : Str),
      cfg.get_bundle p = some b → b.pane = some 2 →
      b.cmd.to_vec = [cmd] → parse_ref cmd = .Command cmd →
      resolve_with_panes cfg p = .ok [(2, [cmd])]) := by
  constructor
  · intro cfg fuel p v pcs d b hv hb hlit
    exact resolve_with_panes_innerF_all_lit cfg fuel p v pcs d b hv hb hlit
  · intro cfg p b cmd hb hpane hcv hcmd
    have hlit : ∀ s ∈ b.cmd.to_vec, parse_ref s = .Command s := by
      rw [hcv]
      intro s hs
      rcases List.mem_cons.mp hs with h | h
      · exact h ▸ hcmd
      · cases h
    rw [resolve_with_panes, show fuelBound cfg = (numPaths cfg + 1) + 1 from rfl,
      resolve_with_panes_innerF_all_lit cfg (numPaths cfg + 1) p [] [] 0 b
        (List.not_mem_nil p) hb hlit, hpane, hcv]
    simp [mergePane, extendOrPush]

/-- C4 instantiated: `g.x` with `pane = 2` and command `"echo hi"`,
resolved top-level, lands under pane `2`. -/
theorem claim_C4_witness :
    resolve_with_panes cfgPane pGX = .ok [(2, [("echo hi").data])] :=
  claim_C4.2 cfgPane pGX
    { cmd := .Single ("echo hi").data, pane := some 2 } (("echo hi").data)
    (by decide) (by decide) (by decide) (by decide)

/-- C5: whatever a pane-mode call returns, the accumulator only evolves
admissibly — every pre-existing entry keeps its position and pane index
and its command list only grows in place, entries appended behind them
are nonempty (an entry is only created for a bundle with at least one
direct literal command), and distinct pane indexes stay distinct (no
second entry is created for a pane that already has one). -/
theorem claim_C5 (cfg : Config) (fuel : Nat) (p : Str) (v : List Str)
    (pcs : PaneCmds) (d : Nat) (res : Except PanoutError Unit)
    (v' : List Str) (pcs' : PaneCmds)
    (h : resolve_with_panes_innerF cfg fuel p v pcs d = some (res, v', pcs')) :
    paneExt pcs pcs' = true ∧
      ((pcs.map Prod.fst).Nodup → (pcs'.map Prod.fst).Nodup) :=
  resolve_with_panes_innerF_step cfg fuel p v pcs d res v' pcs' h

/-- C5 instantiated: resolving `g.x` on top of a seeded accumulator
extends it admissibly — the seed entry keeps its place, pane `2` is
appended behind it with a nonempty list. -/
theorem claim_C5_witness :
    resolve_with_panes_innerF cfgPane 1 pGX [] [(5, [("seed").data])] 0 =
      some (.ok (), [], [(5, [("seed").data]), (2, [("echo hi").data])]) ∧
    (paneExt [(5, [("seed").data])]
        [(5, [("seed").data]), (2, [("echo hi").data])] = true ∧
      (([(5, [("seed").data])].map Prod.fst).Nodup →
        (([(5, [("seed").data]), (2, [("echo hi").data])].map Prod.fst)).Nodup)) :=
  ⟨by decide,
   claim_C5 cfgPane 1 pGX [] [(5, [("seed").data])] 0 (.ok ()) []
     [(5, [("seed").data]), (2, [("echo hi").data])] (by decide)⟩

/-- Referrer with a literal before a reference, same pane. -/
def cfgC6 (la lb : Str) : Config :=
  ⟨[(("g").data, [(("a").data, { cmd := .Multiple [la, ("@g.b").data] }),
                  (("b").data, { cmd := .Single lb })])]⟩

def pGA : Str := ("g.a").data
def pGB : Str := ("g.b").data

/-- C6: a bundle's own direct literal commands are merged only after
its references resolve — with `g.a = [la, "@g.b"]` and `g.b = [lb]`
sharing pane `0`, the referenced bundle's command `lb` lands in the
pane's list before the referrer's literal `la`, although `la` occurs
first in the referrer's command list. -/
theorem claim_C6 (la lb : Str) (hla : parse_ref la = .Command la)
    (hlb : parse_ref lb = .Command lb) :
    resolve_with_panes (cfgC6 la lb) pGA = .ok [(0, [lb, la])] := by
  have hgb : (cfgC6 la lb).get_bundle pGB = some { cmd := .Single lb } := rfl
  have hlitB : ∀ s ∈ (Cmd.Single lb).to_vec, parse_ref s = .Command s := by
    intro s hs
    simp [Cmd.to_vec] at hs
    subst hs
    exact hlb
  have hB : resolve_with_panes_innerF (cfgC6 la lb) (2 + 1) pGB [pGA] [] 0 =
      some (.ok (), [pGA], [(0, [lb])]) := by
    rw [resolve_with_panes_innerF_all_lit (cfgC6 la lb) 2 pGB [pGA] [] 0
      { cmd := .Single lb } (by decide) hgb hlitB]
    simp [mergePane, extendOrPush, Cmd.to_vec]
  have hga : (cfgC6 la lb).get_bundle pGA =
      some { cmd := .Multiple [la, ("@g.b").data] } := rfl
  rw [resolve_with_panes, show fuelBound (cfgC6 la lb) = (2 + 1) + 1 from rfl,
    resolve_with_panes_innerF, if_neg (List.not_mem_nil pGA)]
  simp only [hga]
  have hloop : resolvePaneCmdsF (cfgC6 la lb)
      (fun p v pcs d => resolve_with_panes_innerF (cfgC6 la lb) (2 + 1) p v pcs d)
      ((none : Option Nat).getD 0)
      (Cmd.Multiple [la, ("@g.b").data]).to_vec [pGA] [] =
      some (.ok [la], [pGA], [(0, [lb])]) := by
    rw [show (Cmd.Multiple [la, ("@g.b").data]).to_vec =
      la :: [("@g.b").data] from rfl]
    rw [resolvePaneCmdsF]
    simp only [hla]
    rw [resolvePaneCmdsF]
    simp only [show parse_ref (("@g.b").data) =
        .BundleRef (("g").data) (("b").data) from rfl,
      show mkPath (("g").data) (("b").data) = pGB from rfl,
      show (none : Option Nat).getD 0 = 0 from rfl, hB]
    rw [resolvePaneCmdsF]
  simp only [hloop]
  simp [mergePane, extendOrPush]

/-- C6 instantiated at `la = "echo a"`, `lb = "echo b"`. -/
theorem claim_C6_witness :
    resolve_with_panes (cfgC6 ("echo a").data ("echo b").data) pGA =
      .ok [(0, [("echo b").data, ("echo a").data])] :=
  claim_C6 (("echo a").data) (("echo b").data) (by decide) (by decide)

def pMAll : Str := ("m.all").data

/-- Flat resolution of `m.all = ["@g.*"]` over a group `g` whose sorted
entry names are `a, b` (single literal commands `x` and `y`): the
wildcard expands `a` first, then `b`. -/
theorem groupAll_flat (cfg : Config) (x y : Str) (ents : List (Str × BundleEntry))
    (hm : cfg.get_bundle pMAll = some { cmd := .Single ("@g.*").data })
    (hg : cfg.get_group (("g").data) = some ents)
    (hkeys : sortedKeys ents = [("a").data, ("b").data])
    (ha : cfg.get_bundle (("g.a").data) = some { cmd := .Single x })
    (hb : cfg.get_bundle (("g.b").data) = some { cmd := .Single y })
    (hx : parse_ref x = .Command x) (hy : parse_ref y = .Command y)
    (hnum : numPaths cfg = 3) :
    resolve_bundle cfg pMAll = .ok [x, y] := by
  have hlx : ∀ s ∈ (Cmd.Single x).to_vec, parse_ref s = .Command s := by
    intro s hs; simp [Cmd.to_vec] at hs; subst hs; exact hx
  have hly : ∀ s ∈ (Cmd.Single y).to_vec, parse_ref s = .Command s := by
    intro s hs; simp [Cmd.to_vec] at hs; subst hs; exact hy
  have hax : resolve_bundle_innerF cfg (3 + 1) (("g.a").data) [pMAll] =
      some (.ok [x], [pMAll]) := by
    rw [resolve_bundle_innerF_all_lit cfg 3 (("g.a").data) [pMAll]
      { cmd := .Single x } (by decide) ha hlx]
    rfl
  have hbx : resolve_bundle_innerF cfg (3 + 1) (("g.b").data) [pMAll] =
      some (.ok [y], [pMAll]) := by
    rw [resolve_bundle_innerF_all_lit cfg 3 (("g.b").data) [pMAll]
      { cmd := .Single y } (by decide) hb hly]
    rfl
  have hnames : resolveNamesF (("g").data)
      (fun p v => resolve_bundle_innerF cfg (3 + 1) p v)
      [("a").data, ("b").data] [pMAll] = some (.ok [x, y], [pMAll]) := by
    rw [resolveNamesF]
    simp only [show mkPath (("g").data) (("a").data) = ("g.a").data from rfl, hax]
    rw [resolveNamesF]
    simp only [show mkPath (("g").data) (("b").data) = ("g.b").data from rfl, hbx]
    rw [resolveNamesF]
    simp
  have hfb : fuelBound cfg = (3 + 1) + 1 := by rw [fuelBound, hnum]
  rw [resolve_bundle, hfb, resolve_bundle_innerF, if_neg (List.not_mem_nil _)]
  simp only [hm]
  rw [show (Cmd.Single ("@g.*").data).to_vec = [("@g.*").data] from rfl,
    resolveCmdsF]
  simp only [show parse_ref (("@g.*").data) = .GroupAll (("g").data) from rfl,
    hg, hkeys, hnames]
  rw [resolveCmdsF]
  simp

/-- Pane-mode counterpart of `groupAll_flat`: both entries inherit
pane `0` and merge into one entry in lexicographic order. -/
theorem groupAll_panes (cfg : Config) (x y : Str) (ents : List (Str × BundleEntry))
    (hm : cfg.get_bundle pMAll = some { cmd := .Single ("@g.*").data })
    (hg : cfg.get_group (("g").data) = some ents)
    (hkeys : sortedKeys ents = [("a").data, ("b").data])
    (ha : cfg.get_bundle (("g.a").data) = some { cmd := .Single x })
    (hb : cfg.get_bundle (("g.b").data) = some { cmd := .Single y })
    (hx : parse_ref x = .Command x) (hy : parse_ref y = .Command y)
    (hnum : numPaths cfg = 3) :
    resolve_with_panes cfg pMAll = .ok [(0, [x, y])] := by
  have hlx : ∀ s ∈ (Cmd.Single x).to_vec, parse_ref s = .Command s := by
    intro s hs; simp [Cmd.to_vec] at hs; subst hs; exact hx
  have hly : ∀ s ∈ (Cmd.Single y).to_vec, parse_ref s = .Command s := by
    intro s hs; simp [Cmd.to_vec] at hs; subst hs; exact hy
  have hax : resolve_with_panes_innerF cfg (3 + 1) (("g.a").data) [pMAll] [] 0 =
      some (.ok (), [pMAll], [(0, [x])]) := by
    rw [resolve_with_panes_innerF_all_lit cfg 3 (("g.a").data) [pMAll] [] 0
      { cmd := .Single x } (by decide) ha hlx]
    simp [mergePane, extendOrPush, Cmd.to_vec]
  have hbx : resolve_with_panes_innerF cfg (3 + 1) (("g.b").data) [pMAll]
      [(0, [x])] 0 = some (.ok (), [pMAll], [(0, [x, y])]) := by
    rw [resolve_with_panes_innerF_all_lit cfg 3 (("g.b").data) [pMAll]
      [(0, [x])] 0 { cmd := .Single y } (by decide) hb hly]
    simp [mergePane, extendOrPush, Cmd.to_vec]
  have hnames : resolvePaneNamesF (("g").data)
      (fun p v pcs d => resolve_with_panes_innerF cfg (3 + 1) p v pcs d) 0
      [("a").data, ("b").data] [pMAll] [] =
      some (.ok (), [pMAll], [(0, [x, y])]) := by
    rw [resolvePaneNamesF]
    simp only [show mkPath (("g").data) (("a").data) = ("g.a").data from rfl, hax]
    rw [resolvePaneNamesF]
    simp only [show mkPath (("g").data) (("b").data) = ("g.b").data from rfl, hbx]
    rw [resolvePaneNamesF]
  have hfb : fuelBound cfg = (3 + 1) + 1 := by rw [fuelBound, hnum]
  rw [resolve_with_panes, hfb, resolve_with_panes_innerF,
    if_neg (List.not_mem_nil _)]
  simp only [hm]
  rw [show (Cmd.Single ("@g.*").data).to_vec = [("@g.*").data] from rfl,
    resolvePaneCmdsF]
  simp only [show parse_ref (("@g.*").data) = .GroupAll (("g").data) from rfl,
    hg, hkeys, show ((none : Option Nat)).getD 0 = 0 from rfl, hnames]
  rw [resolvePaneCmdsF]
  simp [mergePane]

/-- Group `g` stored with entry `b` before entry `a`. -/
def cfgC7ba (x y : Str) : Config :=
  ⟨[(("m").data, [(("all").data, { cmd := .Single ("@g.*").data })]),
    (("g").data, [(("b").data, { cmd := .Single y }),
                  (("a").data, { cmd := .Single x })])]⟩

/-- Group `g` stored with entry `a` before entry `b`. -/
def cfgC7ab (x y : Str) : Config :=
  ⟨[(("m").data, [(("all").data, { cmd := .Single ("@g.*").data })]),
    (("g").data, [(("a").data, { cmd := .Single x }),
                  (("b").data, { cmd := .Single y })])]⟩

/-- C7: a group wildcard expands entries in lexicographic order of
entry name in both resolvers, independent of the map's stored order —
whether group `g` stores `b` before `a` or `a` before `b`, `@g.*`
yields `a`'s command `x` first, then `b`'s command `y`. -/
theorem claim_C7 (x y : Str) (hx : parse_ref x = .Command x)
    (hy : parse_ref y = .Command y) :
    resolve_bundle (cfgC7ba x y) pMAll = .ok [x, y] ∧
    resolve_with_panes (cfgC7ba x y) pMAll = .ok [(0, [x, y])] ∧
    resolve_bundle (cfgC7ab x y) pMAll = .ok [x, y] ∧
    resolve_with_panes (cfgC7ab x y) pMAll = .ok [(0, [x, y])] :=
  ⟨groupAll_flat (cfgC7ba x y) x y _ rfl rfl rfl rfl rfl hx hy rfl,
   groupAll_panes (cfgC7ba x y) x y _ rfl rfl rfl rfl rfl hx hy rfl,
   groupAll_flat (cfgC7ab x y) x y _ rfl rfl rfl rfl rfl hx hy rfl,
   groupAll_panes (cfgC7ab x y) x y _ rfl rfl rfl rfl rfl hx hy rfl⟩

/-- C7 instantiated at `x = "xx"`, `y = "yy"`. -/
theorem claim_C7_witness :
    resolve_bundle (cfgC7ba ("xx").data ("yy").data) pMAll =
      .ok [("xx").data, ("yy").data] ∧
    resolve_with_panes (cfgC7ba ("xx").data ("yy").data) pMAll =
      .ok [(0, [("xx").data, ("yy").data])] ∧
    resolve_bundle (cfgC7ab ("xx").data ("yy").data) pMAll =
      .ok [("xx").data, ("yy").data] ∧
    resolve_with_panes (cfgC7ab ("xx").data ("yy").data) pMAll =
      .ok [(0, [("xx").data, ("yy").data])] :=
  claim_C7 (("xx").data) (("yy").data) (by decide) (by decide)

def cfgD (x : List Str) : Config :=
  ⟨[(("d").data, [(("main").data,
      { cmd := .Multiple [("@a.x").data, ("@b.x").data] })]),
    (("a").data, [(("x").data, { cmd := .Single ("@c.y").data })]),
    (("b").data, [(("x").data, { cmd := .Single ("@c.y").data })]),
    (("c").data, [(("y").data, { cmd := .Multiple x })])]⟩

def pDM : Str := ("d.main").data
def pAX : Str := ("a.x").data
def pBX : Str := ("b.x").data
def pCY : Str := ("c.y").data

/-- A frame whose single command is a reference to an all-literal
bundle: it resolves to that bundle''s commands and restores the set. -/
theorem single_ref_frame (cfg : Config) (fuel : Nat) (p q rstr g n : Str)
    (v : List Str) (b bq : BundleEntry) (hv : p ∉ v) (hqv : q ∉ p :: v)
    (hb : cfg.get_bundle p = some b) (hbc : b.cmd.to_vec = [rstr])
    (hr : parse_ref rstr = .BundleRef g n) (hmk : mkPath g n = q)
    (hq : cfg.get_bundle q = some bq)
    (hlit : ∀ s ∈ bq.cmd.to_vec, parse_ref s = .Command s) :
    resolve_bundle_innerF cfg ((fuel + 1) + 1) p v =
      some (.ok (bq.cmd.to_vec ++ []), v) := by
  have hcall : resolve_bundle_innerF cfg (fuel + 1) q (p :: v) =
      some (.ok bq.cmd.to_vec, p :: v) :=
    resolve_bundle_innerF_all_lit cfg fuel q (p :: v) bq hqv hq hlit
  rw [resolve_bundle_innerF, if_neg hv]
  simp only [hb, hbc]
  rw [resolveCmdsF]
  simp only [hr, hmk, hcall]
  rw [resolveCmdsF]
  simp [List.erase_cons_head]

/-- C2: the diamond `d.main -> [@a.x, @b.x]`, `a.x -> @c.y`,
`b.x -> @c.y` resolves without a spurious cycle error (the visiting set
is backtracked after each sibling subtree), and `c.y`''s literal
commands `x` appear once per reference — twice in the flat output. -/
theorem claim_C2 (x : List Str) (hx : ∀ s ∈ x, parse_ref s = .Command s) :
    resolve_bundle (cfgD x) pDM = .ok (x ++ x) := by
  have hcy : (cfgD x).get_bundle pCY = some { cmd := .Multiple x } := rfl
  have hlit : ∀ s ∈ (Cmd.Multiple x).to_vec, parse_ref s = .Command s := hx
  have hA : resolve_bundle_innerF (cfgD x) ((3 + 1) + 1) pAX [pDM] =
      some (.ok (x ++ []), [pDM]) :=
    single_ref_frame (cfgD x) 3 pAX pCY (("@c.y").data) (("c").data)
      (("y").data) [pDM] { cmd := .Single ("@c.y").data }
      { cmd := .Multiple x } (by decide) (by decide) rfl rfl rfl rfl hcy hlit
  have hB : resolve_bundle_innerF (cfgD x) ((3 + 1) + 1) pBX [pDM] =
      some (.ok (x ++ []), [pDM]) :=
    single_ref_frame (cfgD x) 3 pBX pCY (("@c.y").data) (("c").data)
      (("y").data) [pDM] { cmd := .Single ("@c.y").data }
      { cmd := .Multiple x } (by decide) (by decide) rfl rfl rfl rfl hcy hlit
  have hfb : fuelBound (cfgD x) = (((3 + 1) + 1) + 1) := rfl
  rw [resolve_bundle, hfb, resolve_bundle_innerF, if_neg (List.not_mem_nil _)]
  simp only [show (cfgD x).get_bundle pDM = some
    { cmd := .Multiple [("@a.x").data, ("@b.x").data] } from rfl]
  rw [show (Cmd.Multiple [("@a.x").data, ("@b.x").data]).to_vec =
    ("@a.x").data :: [("@b.x").data] from rfl]
  rw [resolveCmdsF]
  simp only [show parse_ref (("@a.x").data) =
      .BundleRef (("a").data) (("x").data) from rfl,
    show mkPath (("a").data) (("x").data) = pAX from rfl, hA]
  rw [resolveCmdsF]
  simp only [show parse_ref (("@b.x").data) =
      .BundleRef (("b").data) (("x").data) from rfl,
    show mkPath (("b").data) (("x").data) = pBX from rfl, hB]
  rw [resolveCmdsF]
  simp [List.erase_cons_head]

/-- C2 instantiated at `x = ["echo c"]`: the shared bundle's command
appears twice in `d.main`'s flat output. -/
theorem claim_C2_witness :
    resolve_bundle (cfgD [("echo c").data]) pDM =
      .ok ([("echo c").data] ++ [("echo c").data]) :=
  claim_C2 [("echo c").data] (by decide)

/-- C9: the source parser agrees with the specification wording on
every string — total, never failing, preserving non-references (sigil
included) and splitting references only at the first dot. -/
theorem claim_C9 : ∀ s : Str, parse_ref s = parse_spec s := by
  intro s
  cases s with
  | nil => rfl
  | cons c rest =>
    by_cases hc : c = '@'
    · subst hc
      have h1 : parse_ref ('@' :: rest) =
          match splitnFirst rest '.' with
          | some (group, name) =>
            if name = ['*'] then .GroupAll group else .BundleRef group name
          | none => .Command ('@' :: rest) := rfl
      have h2 : parse_spec ('@' :: rest) =
          if '.' ∈ rest then
            let group := rest.takeWhile (fun d => decide (d ≠ '.'))
            let r := (rest.dropWhile (fun d => decide (d ≠ '.'))).tail
            if r = ['*'] then .GroupAll group else .BundleRef group r
          else .Command ('@' :: rest) := rfl
      rw [h1, h2]
      by_cases hm : '.' ∈ rest
      · rw [splitnFirst_of_mem hm, if_pos hm]
      · rw [splitnFirst_eq_none_of hm, if_neg hm]
    · have h1 : parse_ref (c :: rest) = .Command (c :: rest) := by
        rw [parse_ref.eq_def]
        split
        · rename_i heq
          injection heq with hch _
          exact absurd hch hc
        · rfl
      have h2 : parse_spec (c :: rest) = .Command (c :: rest) := by
        rw [parse_spec.eq_def]
        split
        · rename_i heq
          injection heq with hch _
          exact absurd hch hc
        · rfl
      rw [h1, h2]

/-- The flat command loop decomposes over list append: run the front,
then on success run the back from the threaded visiting set and
concatenate. -/
theorem resolveCmdsF_append (cfg : Config) (recur : Str → List Str → FlatRes) :
    ∀ (pre cs : List Str) (v : List Str),
      resolveCmdsF cfg recur (pre ++ cs) v =
        match resolveCmdsF cfg recur pre v with
        | some (.ok rp, v₀) =>
          match resolveCmdsF cfg recur cs v₀ with
          | some (.ok r, v') => some (.ok (rp ++ r), v')
          | other => other
        | other => other := by
  intro pre
  induction pre with
  | nil =>
    intro cs v
    rw [List.nil_append]
    show resolveCmdsF cfg recur cs v =
      match resolveCmdsF cfg recur cs v with
      | some (.ok r, v') => some (.ok ([] ++ r), v')
      | other => other
    cases h : resolveCmdsF cfg recur cs v with
    | none => rfl
    | some rv =>
      obtain ⟨res, v'⟩ := rv
      cases res with
      | error e => rfl
      | ok r => simp
  | cons c pre ih =>
    intro cs v
    rw [List.cons_append, resolveCmdsF, resolveCmdsF]
    cases hp : parse_ref c with
    | Command cmd =>
      simp only [hp]
      rw [ih cs v]
      cases h1 : resolveCmdsF cfg recur pre v with
      | none => rfl
      | some rv =>
        obtain ⟨res, v₀⟩ := rv
        cases res with
        | error e => rfl
        | ok rp =>
          simp only
          cases h2 : resolveCmdsF cfg recur cs v₀ with
          | none => rfl
          | some rv2 =>
            obtain ⟨res2, v'⟩ := rv2
            cases res2 with
            | error e => rfl
            | ok r => simp
    | BundleRef group name =>
      simp only [hp]
      cases hr : recur (mkPath group name) v with
      | none => rfl
      | some rv =>
        obtain ⟨res, v₀⟩ := rv
        cases res with
        | error e => rfl
        | ok sub =>
          simp only
          rw [ih cs v₀]
          cases h1 : resolveCmdsF cfg recur pre v₀ with
          | none => rfl
          | some rv1 =>
            obtain ⟨res1, v₁⟩ := rv1
            cases res1 with
            | error e => rfl
            | ok rp =>
              simp only
              cases h2 : resolveCmdsF cfg recur cs v₁ with
              | none => rfl
              | some rv2 =>
                obtain ⟨res2, v'⟩ := rv2
                cases res2 with
                | error e => rfl
                | ok r => simp
    | GroupAll group =>
      simp only [hp]
      cases hg : cfg.get_group group with
      | none => rfl
      | some entries =>
        simp only
        cases hn : resolveNamesF group recur (sortedKeys entries) v with
        | none => rfl
        | some rv =>
          obtain ⟨res, v₀⟩ := rv
          cases res with
          | error e => rfl
          | ok sub =>
            simp only
            rw [ih cs v₀]
            cases h1 : resolveCmdsF cfg recur pre v₀ with
            | none => rfl
            | some rv1 =>
              obtain ⟨res1, v₁⟩ := rv1
              cases res1 with
              | error e => rfl
              | ok rp =>
                simp only
                cases h2 : resolveCmdsF cfg recur cs v₁ with
                | none => rfl
                | some rv2 =>
                  obtain ⟨res2, v'⟩ := rv2
                  cases res2 with
                  | error e => rfl
                  | ok r => simp

/-- C8: the flat inlining law.  If bundle `A` (path `pA`) has command
list `pre ++ [r] ++ post` where `r` references bundle `B ≠ A` whose
commands are the two literals `x, y`, then resolving the synthetic
bundle — `A` with `x, y` substituted for the reference — in the updated
configuration gives exactly the result of resolving `A` itself. -/
theorem claim_C8 (cfg : Config) (pA : Str) (bA bB : BundleEntry)
    (pre post : List Str) (r g n x y : Str)
    (hA : cfg.get_bundle pA = some bA)
    (hAc : bA.cmd.to_vec = pre ++ r :: post)
    (hr : parse_ref r = .BundleRef g n)
    (hB : cfg.get_bundle (mkPath g n) = some bB)
    (hBc : bB.cmd.to_vec = [x, y])
    (hx : parse_ref x = .Command x) (hy : parse_ref y = .Command y)
    (hne : mkPath g n ≠ pA) :
    resolve_bundle (updateBundle cfg pA
      { bA with cmd := .Multiple (pre ++ x :: y :: post) }) pA =
      resolve_bundle cfg pA := by
  have hA' : (updateBundle cfg pA
      { bA with cmd := .Multiple (pre ++ x :: y :: post) }).get_bundle pA =
      some { bA with cmd := .Multiple (pre ++ x :: y :: post) } :=
    get_bundle_updateBundle_self cfg pA _ bA hA
  have hfb : fuelBound (updateBundle cfg pA
      { bA with cmd := .Multiple (pre ++ x :: y :: post) }) = fuelBound cfg := by
    rw [fuelBound, fuelBound, numPaths_updateBundle]
  have hcong := resolveCmdsF_congr
    (updateBundle cfg pA { bA with cmd := .Multiple (pre ++ x :: y :: post) }) cfg
    (fun p v => resolve_bundle_innerF (updateBundle cfg pA
      { bA with cmd := .Multiple (pre ++ x :: y :: post) }) (numPaths cfg + 1) p v)
    (fun p v => resolve_bundle_innerF cfg (numPaths cfg + 1) p v)
    (fun v => pA ∈ v)
    (fun h => get_group_updateBundle_keys cfg pA _ h)
    (fun q v hP => resolve_bundle_innerF_congr cfg
      (updateBundle cfg pA { bA with cmd := .Multiple (pre ++ x :: y :: post) }) pA
      (fun q' hq' => get_bundle_updateBundle_ne cfg pA _ q' hq')
      (fun h => get_group_updateBundle_keys cfg pA _ h)
      (numPaths cfg + 1) q v hP)
    (fun q v r' v' hP hok =>
      (resolve_bundle_innerF_ok_visited cfg _ q v r' v' hok) ▸ hP)
    (pre ++ x :: y :: post) [pA] (by simp)
  have hloops : resolveCmdsF cfg
      (fun p v => resolve_bundle_innerF cfg (numPaths cfg + 1) p v)
      (pre ++ x :: y :: post) [pA] =
      resolveCmdsF cfg
      (fun p v => resolve_bundle_innerF cfg (numPaths cfg + 1) p v)
      (pre ++ r :: post) [pA] := by
    rw [resolveCmdsF_append cfg _ pre (x :: y :: post) [pA],
      resolveCmdsF_append cfg _ pre (r :: post) [pA]]
    cases hpr : resolveCmdsF cfg
        (fun p v => resolve_bundle_innerF cfg (numPaths cfg + 1) p v)
        pre [pA] with
    | none => rfl
    | some rv =>
      obtain ⟨res, v₀⟩ := rv
      cases res with
      | error e => rfl
      | ok rp =>
        have hv₀ : v₀ = [pA] :=
          resolveCmdsF_ok_visited cfg _
            (fun q w rr w' hq =>
              resolve_bundle_innerF_ok_visited cfg _ q w rr w' hq)
            pre [pA] rp v₀ hpr
        subst hv₀
        simp only [resolveCmdsF_inline cfg (numPaths cfg) r x y g n bB hr hB
          hBc hx hy post [pA] (by simp [hne])]
  rw [resolve_bundle, resolve_bundle, hfb,
    show fuelBound cfg = (numPaths cfg + 1) + 1 from rfl]
  conv_lhs => rw [resolve_bundle_innerF]
  conv_rhs => rw [resolve_bundle_innerF]
  rw [if_neg (List.not_mem_nil pA), if_neg (List.not_mem_nil pA)]
  simp only [hA', hA]
  rw [show (Cmd.Multiple (pre ++ x :: y :: post)).to_vec =
    pre ++ x :: y :: post from rfl, hAc]
  rw [hcong, hloops]

/-- A two-bundle configuration for instantiating the inlining law:
`a.m = ["@a.b"]`, `a.b = ["cx", "cy"]`. -/
def cfgW : Config :=
  ⟨[(("a").data, [(("m").data, { cmd := .Single ("@a.b").data }),
                  (("b").data, { cmd := .Multiple [("cx").data, ("cy").data] })])]⟩

/-- C8 instantiated: inlining `a.b`'s two literals into `a.m` yields
the same flat resolution of `a.m`. -/
theorem claim_C8_witness :
    resolve_bundle (updateBundle cfgW (("a.m").data)
      { cmd := .Multiple ([] ++ ("cx").data :: ("cy").data :: []),
        pane := none, role := none, layout := none }) (("a.m").data) =
      resolve_bundle cfgW (("a.m").data) :=
  claim_C8 cfgW (("a.m").data) { cmd := .Single ("@a.b").data }
    { cmd := .Multiple [("cx").data, ("cy").data] } [] [] (("@a.b").data)
    (("a").data) (("b").data) (("cx").data) (("cy").data)
    (by decide) (by decide) (by decide) (by decide) (by decide) (by decide)
    (by decide) (by decide)

end Panout
